import Mathlib

/-!
# KDDockWidgets: application-wide configuration and the multi-splitter layout tree

Part 1 embeds `src/Config.cpp`: the flag word kept in `Config::Private::m_flags`,
its platform-dependent normalisation `Config::Private::fixFlags`, and the
startup-only setters `Config::setFlags` and `Config::setSeparatorThickness`.

`QFlags` values are 32-bit words; they are represented by the natural number of
their bit pattern, `|` and `&` are the bitwise operations on `Nat`, and `~` is the
complement on 32 bits.
-/

namespace KDDockWidgets

/-! ## Pieces that Config.cpp uses but does not define -/

/-- Enumerator values named in Config.cpp. They are declared in `Config.h` and
`multisplitter/MultiSplitterConfig.h`, so they are parameters here. -/
structure FlagValues where
  Flag_NativeTitleBar : Nat
  Flag_AeroSnapWithClientDecos : Nat
  Flag_LazyResize : Nat
  Flag_internal_NoAeroSnap : Nat
  Flag_Default : Nat
  /-- The enumerator `Layouting::Config::Flag::LazyResize`. -/
  Layouting_LazyResize : Nat

/-- The operating system selected by the preprocessor in `fixFlags`:
`Q_OS_WIN` (with `QOperatingSystemVersion::current().majorVersion()`),
`Q_OS_MACOS`, or anything else (with the value of `KDDockWidgets::isWayland()`). -/
inductive OS where
  | windows (majorVersion : Int)
  | macos
  | other (isWayland : Bool)
deriving DecidableEq, Repr

/-- Compile-time and run-time platform facts read by `fixFlags`. -/
structure Platform where
  os : OS
  /-- `KDDOCKWIDGETS_QTQUICK` is defined. -/
  qtquick : Bool
  /-- `DOCKS_DEVELOPER_MODE` is defined. -/
  developerMode : Bool
deriving DecidableEq, Repr

/-- The collaborators of `Config` whose code is elsewhere: the dock registry
(state `R`) and the singleton `Layouting::Config` (state `L`). -/
structure Collaborators (R L : Type) where
  /-- `DockRegistry::isEmpty(excludeBeingDeleted)`. -/
  isEmpty : R → Bool → Bool
  /-- `Layouting::Config::flags()`. -/
  layoutingFlags : L → Nat
  /-- `Layouting::Config::setFlags(flags)`. -/
  layoutingSetFlags : Nat → L → L
  /-- `Layouting::Config::separatorThickness()`. -/
  layoutingSeparatorThickness : L → Int
  /-- `Layouting::Config::setSeparatorThickness(value)`. -/
  layoutingSetSeparatorThickness : Int → L → L
  /-- `Layouting::Config::setSeparatorFactoryFunc(separatorCreator)`. -/
  layoutingSetSeparatorFactoryFunc : L → L

/-! ## QFlags arithmetic -/

/-- `~m` on a 32-bit flag word. -/
def flagsNot (m : Nat) : Nat := 2 ^ 32 - 1 - m % 2 ^ 32

/-- `QFlags::testFlag`-style truth value of `f & m` as used in a C++ condition. -/
def flagsAnd (f m : Nat) : Bool := (f &&& m) != 0

/-- `QFlags::setFlag(flag, on)`: `on ? (*this |= flag) : (*this &= ~flag)`. -/
def setFlag (f flag : Nat) (enabled : Bool) : Nat :=
  if enabled then f ||| flag else f &&& flagsNot flag

/-! ## Config -/

/-- The state touched by `Config`: its own `d->m_flags`, the dock registry and the
`Layouting::Config` singleton. -/
structure State (R L : Type) where
  m_flags : Nat
  registry : R
  layouting : L
deriving DecidableEq, Repr

/-- `Config::Private::fixFlags`, as a function of the flag word. -/
def fixFlags (v : FlagValues) (p : Platform) (m_flags : Nat) : Nat :=
  -- #if defined(Q_OS_WIN) ... #elif defined(Q_OS_MACOS) ... #else ... #endif
  let f1 : Nat :=
    match p.os with
    | OS.windows majorVersion =>
      let g : Nat :=
        if majorVersion < 10 then m_flags &&& flagsNot v.Flag_AeroSnapWithClientDecos
        else m_flags ||| v.Flag_AeroSnapWithClientDecos
      if flagsAnd g v.Flag_AeroSnapWithClientDecos && flagsAnd g v.Flag_NativeTitleBar then
        g &&& flagsNot v.Flag_AeroSnapWithClientDecos
      else g
    | OS.macos => m_flags &&& flagsNot v.Flag_AeroSnapWithClientDecos
    | OS.other isWayland =>
      if isWayland then m_flags ||| v.Flag_NativeTitleBar
      else (m_flags &&& flagsNot v.Flag_NativeTitleBar) &&& flagsNot v.Flag_AeroSnapWithClientDecos
  -- #if (!defined(Q_OS_WIN) && !defined(Q_OS_MACOS)) || defined(KDDOCKWIDGETS_QTQUICK)
  let notWinNotMac : Bool :=
    match p.os with
    | OS.other _ => true
    | _ => false
  let f2 : Nat :=
    if notWinNotMac || p.qtquick then f1 &&& flagsNot v.Flag_AeroSnapWithClientDecos else f1
  -- #if defined(DOCKS_DEVELOPER_MODE)
  if p.developerMode then
    if flagsAnd f2 v.Flag_internal_NoAeroSnap then f2 &&& flagsNot v.Flag_AeroSnapWithClientDecos
    else f2
  else f2

/-- `Config::Config()`: `m_flags` starts as `Flag_Default`, `fixFlags` runs, and the
separator factory is registered with `Layouting::Config`. -/
def Config.construct {R L : Type} (c : Collaborators R L) (v : FlagValues) (p : Platform)
    (registry : R) (layouting : L) : State R L :=
  { m_flags := fixFlags v p v.Flag_Default
    registry := registry
    layouting := c.layoutingSetSeparatorFactoryFunc layouting }

/-- `Config::flags()`. -/
def Config.flags {R L : Type} (s : State R L) : Nat := s.m_flags

/-- `Config::setFlags(f)`. -/
def Config.setFlags {R L : Type} (c : Collaborators R L) (v : FlagValues) (p : Platform)
    (f : Nat) (s : State R L) : State R L :=
  if !c.isEmpty s.registry true then
    s
  else
    let m_flags := fixFlags v p f
    let multisplitterFlags :=
      setFlag (c.layoutingFlags s.layouting) v.Layouting_LazyResize (flagsAnd m_flags v.Flag_LazyResize)
    { s with m_flags := m_flags, layouting := c.layoutingSetFlags multisplitterFlags s.layouting }

/-- `Config::separatorThickness()`. -/
def Config.separatorThickness {R L : Type} (c : Collaborators R L) (s : State R L) : Int :=
  c.layoutingSeparatorThickness s.layouting

/-- `Config::setSeparatorThickness(value)`. -/
def Config.setSeparatorThickness {R L : Type} (c : Collaborators R L) (value : Int)
    (s : State R L) : State R L :=
  if !c.isEmpty s.registry true then
    s
  else
    { s with layouting := c.layoutingSetSeparatorThickness value s.layouting }

/-- What can happen to a constructed `Config` as far as its flags are concerned: a call
of `setFlags` with any argument, or the registry changing (widgets created or destroyed). -/
inductive ConfigEvent (R : Type) where
  | setFlags (f : Nat)
  | registryBecomes (r : R)

/-- One event applied to the state. -/
def Config.step {R L : Type} (c : Collaborators R L) (v : FlagValues) (p : Platform)
    (s : State R L) : ConfigEvent R → State R L
  | ConfigEvent.setFlags f => Config.setFlags c v p f s
  | ConfigEvent.registryBecomes r => { s with registry := r }

/-- The state after constructing the `Config` and then going through a list of events. -/
def Config.run {R L : Type} (c : Collaborators R L) (v : FlagValues) (p : Platform)
    (registry : R) (layouting : L) (events : List (ConfigEvent R)) : State R L :=
  events.foldl (Config.step c v p) (Config.construct c v p registry layouting)

/-- Both `Flag_AeroSnapWithClientDecos` and `Flag_NativeTitleBar` are set in `f`
(the condition tested in `fixFlags`). -/
def bothDecorations (v : FlagValues) (f : Nat) : Bool :=
  flagsAnd f v.Flag_AeroSnapWithClientDecos && flagsAnd f v.Flag_NativeTitleBar

/-! ### A concrete instance, used to exercise the definitions -/

/-- A `Layouting::Config` that just stores what it is given. -/
structure PlainLayouting where
  flags : Nat
  separatorThickness : Int
deriving DecidableEq, Repr

/-- Collaborators for a registry that counts live widgets and a storing `Layouting::Config`. -/
def plainCollaborators : Collaborators Nat PlainLayouting :=
  { isEmpty := fun r _ => r == 0
    layoutingFlags := fun l => l.flags
    layoutingSetFlags := fun f l => { l with flags := f }
    layoutingSeparatorThickness := fun l => l.separatorThickness
    layoutingSetSeparatorThickness := fun t l => { l with separatorThickness := t }
    layoutingSetSeparatorFactoryFunc := fun l => l }

/-- Single-bit enumerator values. -/
def plainFlagValues : FlagValues :=
  { Flag_NativeTitleBar := 1
    Flag_AeroSnapWithClientDecos := 2
    Flag_LazyResize := 1024
    Flag_internal_NoAeroSnap := 4096
    Flag_Default := 2
    Layouting_LazyResize := 1 }

end KDDockWidgets

/-!
# Part 2: the multi-splitter layout tree

The layout engine (Item, Container, `distribute`, `setGeometry`, separator drag, `insert`,
`remove`, `restore`) is described by the specification but its code is not among the sources
of this development. The definitions of this part are written from the specification's
sections 3, 4.1, 4.2, 4.3, 4.5 and 7. Weights are kept as natural numbers: the weight of a
child is its share of the summed weights of its Container.
-/

namespace KDDockWidgets.MultiSplitter

/-- Modelled from the spec: the orientation of a Container (section 3, "horizontal | vertical");
the Container code is absent. A horizontal Container lays its children out side by side, so
its split axis is the x axis (section 8: "a horizontal Container [A, B] ... each occupying
half the width"). -/
inductive Orientation where
  | horizontal
  | vertical
deriving DecidableEq, Repr

/-- Modelled from the spec: the size value type of the geometry primitives (section 2), whose
code is absent. -/
structure Size where
  width : Nat
  height : Nat
deriving DecidableEq, Repr

/-- Modelled from the spec: a geometry "(x, y, width, height)" (section 3), whose code is
absent. -/
structure Rect where
  x : Nat
  y : Nat
  width : Nat
  height : Nat
deriving DecidableEq, Repr

/-- Modelled from the spec: the component of a size along an axis (absent geometry
primitives). -/
def Size.along (o : Orientation) (s : Size) : Nat :=
  match o with
  | Orientation.horizontal => s.width
  | Orientation.vertical => s.height

/-- Modelled from the spec: the extent of a rectangle along an axis (absent geometry
primitives). -/
def Rect.extent (o : Orientation) (r : Rect) : Nat :=
  match o with
  | Orientation.horizontal => r.width
  | Orientation.vertical => r.height

/-- Modelled from the spec: the coordinate at which a rectangle starts along an axis (absent
geometry primitives). -/
def Rect.start (o : Orientation) (r : Rect) : Nat :=
  match o with
  | Orientation.horizontal => r.x
  | Orientation.vertical => r.y

/-- Modelled from the spec: the rectangle of a child of a Container with rectangle `r` split
along `o`, when the child starts at `pos` and has extent `e` along the split axis; "along the
cross axis, every child receives the Container's full cross extent" (section 4.2). The
Container code is absent. -/
def Rect.slice (o : Orientation) (r : Rect) (pos e : Nat) : Rect :=
  match o with
  | Orientation.horizontal => { x := pos, y := r.y, width := e, height := r.height }
  | Orientation.vertical => { x := r.x, y := pos, width := r.width, height := e }

/-- Modelled from the spec: the Item of section 3 ("identity (stable id), associated panel
reference, current geometry, min-size constraint, visibility flag"), whose code is absent.
`tabs` holds the further stacked panels of a tab group (section 4.3, `OnTop`). -/
structure Item where
  id : Nat
  panel : Nat
  tabs : List Nat
  geometry : Rect
  minSize : Size
  visible : Bool
deriving DecidableEq, Repr

/-- Modelled from the spec: a node of the tree, "an Item or a nested Container, a tagged
union" (section 3); the tree code is absent. A Container has an orientation, a total geometry
and an ordered sequence of children. `weight` is the proportional weight the node holds in
its parent (section 4.2); the weight of the root is not used. The separators of a Container
are derived: there is one between each two neighbours. -/
inductive Node where
  | item (weight : Nat) (it : Item)
  | container (weight : Nat) (orientation : Orientation) (geometry : Rect) (children : List Node)
deriving Repr

/-- Modelled from the spec: the weight a child holds in its Container (section 4.2); the
Container code is absent. -/
def Node.weight : Node → Nat
  | Node.item w _ => w
  | Node.container w _ _ _ => w

/-- Modelled from the spec: a node with its weight replaced (absent Container code). -/
def Node.setWeight (w : Nat) : Node → Node
  | Node.item _ it => Node.item w it
  | Node.container _ o g cs => Node.container w o g cs

/-- Modelled from the spec: the current geometry of an Item or Container (section 3); the
code is absent. -/
def Node.geometry : Node → Rect
  | Node.item _ it => it.geometry
  | Node.container _ _ g _ => g

mutual
/-- Modelled from the spec: the minimum extent of a node along an axis (absent Container
code). An Item has its min-size constraint. The specification uses "each child's min-size"
without defining it for a nested Container; here it is what the Container needs: along its
own split axis the minimums of its children plus the separators, across it the largest
minimum of its children. -/
def Node.minExtent (thickness : Nat) (axis : Orientation) : Node → Nat
  | Node.item _ it => it.minSize.along axis
  | Node.container _ o _ cs =>
    if o = axis then Node.sumMinExtent thickness axis cs + thickness * (cs.length - 1)
    else Node.maxMinExtent thickness axis cs
/-- Modelled from the spec: the sum of the minimum extents of a list of children (absent
Container code). -/
def Node.sumMinExtent (thickness : Nat) (axis : Orientation) : List Node → Nat
  | [] => 0
  | c :: cs => Node.minExtent thickness axis c + Node.sumMinExtent thickness axis cs
/-- Modelled from the spec: the largest minimum extent in a list of children (absent
Container code). -/
def Node.maxMinExtent (thickness : Nat) (axis : Orientation) : List Node → Nat
  | [] => 0
  | c :: cs => max (Node.minExtent thickness axis c) (Node.maxMinExtent thickness axis cs)
end

/-- Modelled from the spec: the slots of `distribute` before the minimums are reconciled
with `total` (section 4.1; the code is absent): each slot is its share of `total` in
proportion to its weight, rounded down, or its minimum where the share is smaller. -/
def raisedShares (total : Nat) (weights minimums : List Nat) : List Nat :=
  List.zipWith (fun w m => max m (total * w / weights.sum)) weights minimums

/-- Modelled from the spec: what the raised slots of `distribute` hold beyond `total` is
taken back from the slots that are above their minimum, the first slots first, never below a
minimum (section 4.1, "guaranteeing each slot ≥ its minimum"; the code is absent). -/
def takeBack : Nat → List Nat → List Nat → List Nat
  | excess, x :: xs, m :: ms =>
    (x - min excess (x - m)) :: takeBack (excess - min excess (x - m)) xs ms
  | _, xs, _ => xs

/-- Modelled from the spec: `distribute(total, weights, minimums)` of section 4.1, whose code
is absent: it "divides `total` extent among N slots proportionally to current weights while
guaranteeing each slot ≥ its minimum; if minimums alone exceed `total`, slots are clamped to
minimum and an overflow is reported to the caller". Where the proportional shares meet the
minimums they are the result; a share below its minimum is raised to it and the others give
the difference back. The second component is the overflow report. -/
def distribute (total : Nat) (weights minimums : List Nat) : List Nat × Bool :=
  if total < minimums.sum then (minimums, true)
  else
    (takeBack ((raisedShares total weights minimums).sum - total)
      (raisedShares total weights minimums) minimums, false)

/-- Modelled from the spec: "remaining/rounding pixels are assigned to the last child"
(section 4.2); the Container code is absent. -/
def addToLast (extra : Nat) : List Nat → List Nat
  | [] => []
  | [e] => [e + extra]
  | e :: e2 :: es => e :: addToLast extra (e2 :: es)

/-- Modelled from the spec: "sum of children's extents along the split axis" (section 3);
no code states it. -/
def Node.sumExtent (o : Orientation) (cs : List Node) : Nat :=
  (cs.map (fun c => c.geometry.extent o)).sum

/-- Modelled from the spec: the weights the children of a Container hold once they are laid
out, "each child currently holds a proportional weight (fraction of prior total extent)"
(section 4.2); the Container code is absent. The weight of a child becomes its extent along
the split axis, so the weights are the fractions of the total extent. The weights stay when
the extents are not a division of the extent: under a constraint violation at this Container
(the children are clamped to their minimums) and when the total is 0. -/
def Node.holdExtents (o : Orientation) (violation : Bool) (cs : List Node) : List Node :=
  if violation || decide (Node.sumExtent o cs = 0) then cs
  else cs.map (fun c => Node.setWeight (c.geometry.extent o) c)

mutual
/-- Modelled from the spec: `setGeometry(rect)` of section 4.2 on a node, whose code is
absent. It "assigns the Container's bounding rectangle and recomputes every child's
geometry": along the split axis the extent left after the separators is divided by
`distribute` using the children's weights and minimums, and the remaining pixels go to the
last child; along the cross axis every child receives the full cross extent; then
`setGeometry` is invoked on each child with its rectangle, and the children hold their new
fractions of the extent as weights. The second component is the
constraint-violation report of section 7 ("requested total extent insufficient for combined
minimums"), from this Container or from one below it; an extent that does not even hold the
separators is such a violation. -/
def Node.setGeometry (thickness : Nat) (rect : Rect) : Node → Node × Bool
  | Node.item w it => (Node.item w { it with geometry := rect }, false)
  | Node.container w o _ cs =>
    let separators := thickness * (cs.length - 1)
    let available := rect.extent o - separators
    let shares := distribute available (cs.map Node.weight) (cs.map (Node.minExtent thickness o))
    let extents := addToLast (available - shares.1.sum) shares.1
    let laidOut := Node.layoutChildren thickness o rect (rect.start o) extents cs
    let violation := shares.2 || decide (rect.extent o < separators)
    (Node.container w o rect (Node.holdExtents o violation laidOut.1), violation || laidOut.2)
/-- Modelled from the spec: the children of a Container placed one after the other along the
split axis, a separator apart, each with its extent (section 4.2); the Container code is
absent. -/
def Node.layoutChildren (thickness : Nat) (o : Orientation) (rect : Rect) (pos : Nat) :
    List Nat → List Node → List Node × Bool
  | e :: es, c :: cs =>
    let first := Node.setGeometry thickness (rect.slice o pos e) c
    let others := Node.layoutChildren thickness o rect (pos + e + thickness) es cs
    (first.1 :: others.1, first.2 || others.2)
  | _, cs => (cs, false)
end

/-- Modelled from the spec: "no gap, no overlap" (section 8) among the children of a
Container with rectangle `g`, which no code states: from `pos` on, each child occupies exactly
the slice of `g` that starts where the previous child and its separator end, over the full
cross extent of `g`. -/
def Node.tiles (thickness : Nat) (o : Orientation) (g : Rect) : Nat → List Node → Bool
  | _, [] => true
  | pos, c :: cs =>
    decide (c.geometry = g.slice o pos (c.geometry.extent o)) &&
      Node.tiles thickness o g (pos + c.geometry.extent o + thickness) cs

/-- Modelled from the spec: the coverage invariant of sections 3 and 8 at one Container, which
no code states: "sum of children's extents along the split axis plus separator thicknesses
equals the Container's extent along that axis", with no gap and no overlap: the children lie
one after the other from the start of the Container, a separator apart. -/
def Node.exactlyCovered (thickness : Nat) : Node → Bool
  | Node.item _ _ => true
  | Node.container _ o g cs =>
    decide (Node.sumExtent o cs + thickness * (cs.length - 1) = g.extent o) &&
      Node.tiles thickness o g (g.start o) cs

/-- Modelled from the spec: the extent of a Container along its split axis suffices for the
minimums of its children and its separators, so that no constraint violation is due at this
Container (sections 4.1 and 7; no code states it). -/
def Node.minimumsFit (thickness : Nat) : Node → Bool
  | Node.item _ _ => true
  | Node.container _ o g cs =>
    decide (Node.sumMinExtent thickness o cs + thickness * (cs.length - 1) ≤ g.extent o)

mutual
/-- Modelled from the spec: the Containers of a subtree, the node itself first ("for all
Containers", section 8; no code states it). -/
def Node.containers : Node → List Node
  | Node.item _ _ => []
  | Node.container w o g cs => Node.container w o g cs :: Node.containersL cs
/-- Modelled from the spec: the Containers below a list of children (no code states it). -/
def Node.containersL : List Node → List Node
  | [] => []
  | c :: cs => Node.containers c ++ Node.containersL cs
end

mutual
/-- Modelled from the spec: the identities of the Items of a subtree, in layout order
(section 3, "identity (stable id)"; no code states it). -/
def Node.itemIds : Node → List Nat
  | Node.item _ it => [it.id]
  | Node.container _ _ _ cs => Node.itemIdsL cs
/-- Modelled from the spec: the identities of the Items below a list of children (no code
states it). -/
def Node.itemIdsL : List Node → List Nat
  | [] => []
  | c :: cs => Node.itemIds c ++ Node.itemIdsL cs
end

mutual
/-- Modelled from the spec: the minimality invariant of section 8 on a subtree, which no code
states: no Container in it has fewer than two children. -/
def Node.minimal : Node → Bool
  | Node.item _ _ => true
  | Node.container _ _ _ cs => decide (2 ≤ cs.length) && Node.minimalL cs
/-- Modelled from the spec: the minimality invariant on every child of a list (no code states
it). -/
def Node.minimalL : List Node → Bool
  | [] => true
  | c :: cs => Node.minimal c && Node.minimalL cs
end

/-- Modelled from the spec: the `location` argument of `insert`, "location ∈ {Left, Right, Top,
Bottom, OnTop(tab)}" (section 4.3); the tree code is absent. -/
inductive Location where
  | left
  | right
  | top
  | bottom
  | onTop
deriving DecidableEq, Repr

/-- Modelled from the spec: the failures of sections 4.5 and 7 that are reported to the
caller (absent tree and serializer code): an `insert` with a dangling anchor, a `remove` of
an Item that is not in the tree, a drag of a separator that is not in the tree, and the four
kinds of malformed persisted data. -/
inductive LayoutError where
  | danglingAnchor
  | itemNotPresent
  | noSuchSeparator
  | unknownPanel
  | badOrientation
  | nonPositiveWeight
  | tooFewChildren
deriving DecidableEq, Repr

/-- Modelled from the spec: the Multi-Splitter Tree of section 3, whose code is absent. It
owns its root, which is absent when the tree is empty ("root is null until the next insert"),
a single Item, or a Container (section 8 scenarios), and the rectangle it lays the root out
in. -/
structure Tree where
  root : Option Node
  geometry : Rect
deriving Repr

/-- Modelled from the spec: the empty tree, "a valid terminal state" (section 4.3); the tree
code is absent. -/
def Tree.empty : Tree :=
  { root := none, geometry := { x := 0, y := 0, width := 0, height := 0 } }

/-- Modelled from the spec: `setGeometry(rect)` on the tree (section 2: the host notifies the
tree of a resize and the tree recomputes the geometries top-down); the tree code is absent.
The second component is the constraint-violation report. -/
def Tree.setGeometry (thickness : Nat) (rect : Rect) (t : Tree) : Tree × Bool :=
  match t.root with
  | none => ({ root := none, geometry := rect }, false)
  | some n =>
    let r := Node.setGeometry thickness rect n
    ({ root := some r.1, geometry := rect }, r.2)

/-- Modelled from the spec: the geometry pass that ends a structural mutation ("`setGeometry`
is re-run", section 4.3), over the rectangle the tree already has; the tree code is absent. -/
def Tree.relayout (thickness : Nat) (t : Tree) : Tree :=
  (Tree.setGeometry thickness t.geometry t).1

/-- Modelled from the spec: the orientation of the split that a location asks for (Left and
Right split horizontally, Top and Bottom vertically, section 8 scenarios) and whether the new
Item goes before the anchor; `OnTop` asks for no split. The tree code is absent. -/
def Location.split : Location → Option (Orientation × Bool)
  | Location.left => some (Orientation.horizontal, true)
  | Location.right => some (Orientation.horizontal, false)
  | Location.top => some (Orientation.vertical, true)
  | Location.bottom => some (Orientation.vertical, false)
  | Location.onTop => none

/-- Modelled from the spec: two nodes in the order asked for (absent tree code). -/
def ordered (before : Bool) (new anchor : Node) : List Node :=
  if before then [new, anchor] else [anchor, new]

mutual
/-- Modelled from the spec: the split case of `insert(item, anchor, location)` below a node
(section 4.3), whose code is absent. `parent` is the orientation of the Container the node
is a child of, if it has one. The result is what takes the node's place among its parent's
children, or `none` when the anchor is not in the node. "If the anchor's parent Container
already has matching orientation, the new Item is inserted adjacent to the anchor in that
Container; otherwise a new intermediate Container (with the requested orientation) replaces
the anchor in its parent, containing the anchor and the new Item as two children with equal
initial weights." In the first case, for which the specification names no weight, the new
Item also starts with the weight of the anchor. -/
def Node.insertNear (new : Item) (anchor : Nat) (o : Orientation) (before : Bool)
    (parent : Option Orientation) : Node → Option (List Node)
  | Node.item w it =>
    if it.id = anchor then
      if parent = some o then some (ordered before (Node.item w new) (Node.item w it))
      else
        some [Node.container w o it.geometry (ordered before (Node.item 1 new) (Node.item 1 it))]
    else none
  | Node.container w o2 g cs =>
    match Node.insertNearL new anchor o before (some o2) cs with
    | some cs2 => some [Node.container w o2 g cs2]
    | none => none
/-- Modelled from the spec: the split case of `insert` among the children of a Container
(section 4.3), at the first child that holds the anchor; the tree code is absent. -/
def Node.insertNearL (new : Item) (anchor : Nat) (o : Orientation) (before : Bool)
    (parent : Option Orientation) : List Node → Option (List Node)
  | [] => none
  | c :: cs =>
    match Node.insertNear new anchor o before parent c with
    | some r => some (r ++ cs)
    | none =>
      match Node.insertNearL new anchor o before parent cs with
      | some cs2 => some (c :: cs2)
      | none => none
end

mutual
/-- Modelled from the spec: the `OnTop` case of `insert` below a node (section 4.3), whose
code is absent: "the item is added as an alternate tab of the anchor's Item-equivalent
(tabbing is modeled as an Item containing multiple stacked panels with one active panel)".
The result is `none` when the anchor is not in the node. -/
def Node.addTab (new : Item) (anchor : Nat) : Node → Option Node
  | Node.item w it =>
    if it.id = anchor then some (Node.item w { it with tabs := it.tabs ++ new.panel :: new.tabs })
    else none
  | Node.container w o g cs =>
    match Node.addTabL new anchor cs with
    | some cs2 => some (Node.container w o g cs2)
    | none => none
/-- Modelled from the spec: the `OnTop` case of `insert` among the children of a Container
(absent tree code). -/
def Node.addTabL (new : Item) (anchor : Nat) : List Node → Option (List Node)
  | [] => none
  | c :: cs =>
    match Node.addTab new anchor c with
    | some c2 => some (c2 :: cs)
    | none =>
      match Node.addTabL new anchor cs with
      | some cs2 => some (c :: cs2)
      | none => none
end

/-- Modelled from the spec: `insert` with a null anchor on a non-empty tree, "item becomes
(or joins) the root" (section 4.3); the tree code is absent. A root Container of the
requested orientation receives the Item at its start or end, with the weight of the child
next to it; any other root becomes one of the two children, with equal weights, of a new
root Container of the requested orientation. -/
def Node.joinRoot (new : Item) (o : Orientation) (before : Bool) (rect : Rect) : Node → Node
  | Node.item w it =>
    Node.container w o rect (ordered before (Node.item 1 new) (Node.item 1 it))
  | Node.container w o2 g cs =>
    if o2 = o then
      if before then Node.container w o2 g (Node.item ((cs.head?.map Node.weight).getD 1) new :: cs)
      else Node.container w o2 g (cs ++ [Node.item ((cs.getLast?.map Node.weight).getD 1) new])
    else
      Node.container w o rect
        (ordered before (Node.item 1 new) (Node.setWeight 1 (Node.container w o2 g cs)))

/-- Modelled from the spec: `insert(item, anchor, location)` of section 4.3, whose code is
absent. With a null anchor the item becomes or joins the root; with an anchor it is tabbed
onto it (`OnTop`) or split next to it. A dangling anchor is an invalid structural request,
"rejected at the call, tree unchanged, reported to the caller" (section 7); so is `OnTop`
without an Item to tab onto. Afterwards the geometry is recomputed. -/
def Tree.insert (thickness : Nat) (new : Item) (anchor : Option Nat) (location : Location)
    (t : Tree) : Except LayoutError Tree :=
  match t.root, anchor, location.split with
  | none, none, _ =>
    Except.ok (Tree.relayout thickness { t with root := some (Node.item 1 new) })
  | none, some _, _ => Except.error LayoutError.danglingAnchor
  | some (Node.item w it), none, none =>
    Except.ok (Tree.relayout thickness
      { t with root := some (Node.item w { it with tabs := it.tabs ++ new.panel :: new.tabs }) })
  | some (Node.container _ _ _ _), none, none => Except.error LayoutError.danglingAnchor
  | some n, none, some (o, before) =>
    Except.ok (Tree.relayout thickness
      { t with root := some (Node.joinRoot new o before t.geometry n) })
  | some n, some a, none =>
    match Node.addTab new a n with
    | some n2 => Except.ok (Tree.relayout thickness { t with root := some n2 })
    | none => Except.error LayoutError.danglingAnchor
  | some n, some a, some (o, before) =>
    match Node.insertNear new a o before none n with
    | some [n2] => Except.ok (Tree.relayout thickness { t with root := some n2 })
    | _ => Except.error LayoutError.danglingAnchor

/-- Modelled from the spec: what `remove(item)` makes of a subtree (section 4.3; the tree
code is absent): the Item is not in it, the subtree is gone, or another node takes its
place. -/
inductive Removal where
  | notFound
  | vanished
  | replaced (n : Node)

mutual
/-- Modelled from the spec: `remove(item)` of section 4.3 below a node, whose code is absent.
It "detaches the Item from its parent Container's children; if this leaves the parent with
one child, the parent Container is collapsed and replaced by that remaining child in the
grandparent; cascades upward while the collapse condition holds". The remaining child takes
over the weight of the Container it replaces. -/
def Node.remove (id : Nat) : Node → Removal
  | Node.item _ it => if it.id = id then Removal.vanished else Removal.notFound
  | Node.container w o g cs =>
    match Node.removeL id cs with
    | none => Removal.notFound
    | some [] => Removal.vanished
    | some [c] => Removal.replaced (Node.setWeight w c)
    | some (c :: c2 :: cs2) => Removal.replaced (Node.container w o g (c :: c2 :: cs2))
/-- Modelled from the spec: `remove(item)` among the children of a Container, at the first
child that holds the Item; `none` when no child holds it (absent tree code). -/
def Node.removeL (id : Nat) : List Node → Option (List Node)
  | [] => none
  | c :: cs =>
    match Node.remove id c with
    | Removal.vanished => some cs
    | Removal.replaced c2 => some (c2 :: cs)
    | Removal.notFound =>
      match Node.removeL id cs with
      | some cs2 => some (c :: cs2)
      | none => none
end

/-- Modelled from the spec: `remove(item)` of section 4.3 on the tree, whose code is absent.
"If the removed Item was the sole content of the root, the tree becomes empty"; the removal
of an Item that is not in the tree is "rejected at the call, tree unchanged, reported to the
caller" (section 7). Afterwards the geometry is recomputed (section 8: the root collapses
"to just B, occupying the full rect"). -/
def Tree.remove (thickness : Nat) (id : Nat) (t : Tree) : Except LayoutError Tree :=
  match t.root with
  | none => Except.error LayoutError.itemNotPresent
  | some n =>
    match Node.remove id n with
    | Removal.notFound => Except.error LayoutError.itemNotPresent
    | Removal.vanished => Except.ok { t with root := none }
    | Removal.replaced n2 => Except.ok (Tree.relayout thickness { t with root := some n2 })

/-- Modelled from the spec: the persisted representation of section 4.5, whose code is
absent: "for each Container, its orientation and the list of (child-weight, child-subtree)
pairs; for each Item, its panel identity and visibility". The weight of a subtree is kept in
its record, the orientation is the raw stored value (0 horizontal, 1 vertical). -/
inductive SavedNode where
  | item (weight : Int) (panel : Nat) (visible : Bool)
  | container (weight : Int) (orientation : Nat) (children : List SavedNode)
deriving Repr

/-- Modelled from the spec: what the Dock Registry lookup of section 6 returns for a known
panel, `resolvePanel(id) -> panelHandle | NotFound`; the registry code is absent. The handle
carries the minimum size of the panel, which the persisted data does not hold. -/
structure PanelHandle where
  handle : Nat
  minSize : Size
deriving DecidableEq, Repr

mutual
/-- Modelled from the spec: validation and construction of a subtree by `restore(data)`
(section 4.5), whose code is absent. It "must reject malformed input (unknown panel
identity, orientation value out of the two-value domain, weights that are non-positive, or a
Container with fewer than two children) with a specific failure rather than constructing a
partially-invalid tree". The weight of the root record is not a child weight and is not
checked. -/
def SavedNode.build (resolvePanel : Nat → Option PanelHandle) (isRoot : Bool) :
    SavedNode → Except LayoutError Node
  | SavedNode.item w panel visible =>
    if !isRoot && decide (w ≤ 0) then Except.error LayoutError.nonPositiveWeight
    else
      match resolvePanel panel with
      | none => Except.error LayoutError.unknownPanel
      | some h =>
        Except.ok (Node.item w.toNat
          { id := panel, panel := h.handle, tabs := [],
            geometry := { x := 0, y := 0, width := 0, height := 0 },
            minSize := h.minSize, visible := visible })
  | SavedNode.container w orientation children =>
    if !isRoot && decide (w ≤ 0) then Except.error LayoutError.nonPositiveWeight
    else if 2 ≤ orientation then Except.error LayoutError.badOrientation
    else if children.length < 2 then Except.error LayoutError.tooFewChildren
    else
      match SavedNode.buildL resolvePanel children with
      | Except.error e => Except.error e
      | Except.ok cs =>
        Except.ok (Node.container w.toNat
          (if orientation = 0 then Orientation.horizontal else Orientation.vertical)
          { x := 0, y := 0, width := 0, height := 0 } cs)
/-- Modelled from the spec: validation and construction of the children of a persisted
Container (section 4.5; absent serializer code). -/
def SavedNode.buildL (resolvePanel : Nat → Option PanelHandle) :
    List SavedNode → Except LayoutError (List Node)
  | [] => Except.ok []
  | d :: ds =>
    match SavedNode.build resolvePanel false d with
    | Except.error e => Except.error e
    | Except.ok c =>
      match SavedNode.buildL resolvePanel ds with
      | Except.error e => Except.error e
      | Except.ok cs => Except.ok (c :: cs)
end

/-- Modelled from the spec: `restore(data)` of section 4.5, whose code is absent. Malformed
data fails "fully and atomically; no partial tree is ever installed; the previous tree (if
any) remains active" (section 7); "on success it performs an atomic swap" and the geometry
of the new tree is computed. Persisted data without a root restores the empty tree. -/
def Tree.restore (thickness : Nat) (resolvePanel : Nat → Option PanelHandle)
    (data : Option SavedNode) (t : Tree) : Except LayoutError Tree :=
  match data with
  | none => Except.ok { t with root := none }
  | some d =>
    match SavedNode.build resolvePanel true d with
    | Except.error e => Except.error e
    | Except.ok n => Except.ok (Tree.relayout thickness { t with root := some n })

/-- Modelled from the spec: `clamp(size, min, max)` of the geometry primitives (section 4.1),
whose code is absent. -/
def clamp (size lo hi : Int) : Int := max lo (min size hi)

/-- Modelled from the spec: the weights of the children of a Container after a separator
drag, "their weights are updated proportionally" (section 4.2); the Container code is absent.
The weights are the fractions of the total extent: the children at `index` and `index + 1`
hold their new extents `ea` and `eb`, every other child its own extent. -/
def reweigh (o : Orientation) (ea eb : Nat) : Nat → List Node → List Node
  | _, [] => []
  | 0, [a] => [a]
  | 0, a :: b :: rest =>
    Node.setWeight ea a :: Node.setWeight eb b ::
      rest.map (fun n => Node.setWeight (n.geometry.extent o) n)
  | index + 1, c :: cs => Node.setWeight (c.geometry.extent o) c :: reweigh o ea eb index cs

/-- Modelled from the spec: "Resizing a Separator by a drag delta" (section 4.2) in the
Container that owns the separator, whose code is absent: "the delta is clamped so neither
adjacent sibling goes below its minimum; the delta is applied by transferring extent from
one sibling to the other (their weights are updated proportionally) and `setGeometry` is
re-run for the Container only". The separator `index` lies between the children `index` and
`index + 1`. When the clamped delta is 0 no extent is transferred and the weights stay. The
result is `none` when the node has no such separator. -/
def Node.dragSeparator (thickness : Nat) (index : Nat) (delta : Int) : Node → Option Node
  | Node.item _ _ => none
  | Node.container w o g cs =>
    match cs[index]?, cs[index + 1]? with
    | some a, some b =>
      let ea : Int := (a.geometry.extent o : Nat)
      let eb : Int := (b.geometry.extent o : Nat)
      let d := clamp delta ((Node.minExtent thickness o a : Nat) - ea)
        (eb - (Node.minExtent thickness o b : Nat))
      let cs2 :=
        if d = 0 then cs
        else reweigh o (ea + d).toNat (eb - d).toNat index cs
      some (Node.setGeometry thickness g (Node.container w o g cs2)).1
    | _, _ => none

mutual
/-- Modelled from the spec: a separator drag in the Container reached from a node by a path
of child positions (section 4.2; the tree code is absent). "Siblings outside the Container
are unaffected". -/
def Node.dragAt (thickness : Nat) (index : Nat) (delta : Int) : List Nat → Node → Option Node
  | [], n => Node.dragSeparator thickness index delta n
  | _ :: _, Node.item _ _ => none
  | i :: path, Node.container w o g cs =>
    match Node.dragAtL thickness index delta i path cs with
    | some cs2 => some (Node.container w o g cs2)
    | none => none
/-- Modelled from the spec: a separator drag below the child at position `i` of a list of
children (absent tree code). -/
def Node.dragAtL (thickness : Nat) (index : Nat) (delta : Int) :
    Nat → List Nat → List Node → Option (List Node)
  | _, _, [] => none
  | 0, path, c :: cs =>
    match Node.dragAt thickness index delta path c with
    | some c2 => some (c2 :: cs)
    | none => none
  | i + 1, path, c :: cs =>
    match Node.dragAtL thickness index delta i path cs with
    | some cs2 => some (c :: cs2)
    | none => none
end

/-- Modelled from the spec: the separator drag of section 4.2 on the tree, whose code is
absent. The Container is addressed by the path of child positions from the root, the
separator by its "index position within its owning Container" (section 3). A drag that names
no separator of the tree is rejected and leaves the tree unchanged. -/
def Tree.dragSeparator (thickness : Nat) (path : List Nat) (index : Nat) (delta : Int)
    (t : Tree) : Except LayoutError Tree :=
  match t.root with
  | none => Except.error LayoutError.noSuchSeparator
  | some n =>
    match Node.dragAt thickness index delta path n with
    | some n2 => Except.ok { t with root := some n2 }
    | none => Except.error LayoutError.noSuchSeparator

/-- Modelled from the spec: the public operations of the Multi-Splitter Tree named in
sections 4.2, 4.3 and 4.5 (absent tree code): `insert`, `remove`, the two resize operations
`setGeometry` and separator drag, and `restore`. -/
inductive Operation where
  | insert (new : Item) (anchor : Option Nat) (location : Location)
  | remove (id : Nat)
  | setGeometry (rect : Rect)
  | dragSeparator (path : List Nat) (index : Nat) (delta : Int)
  | restore (data : Option SavedNode)

/-- Modelled from the spec: the tree after one public operation (absent tree code). A
rejected operation leaves the tree unchanged (section 7). -/
def Tree.apply (thickness : Nat) (resolvePanel : Nat → Option PanelHandle) (t : Tree) :
    Operation → Tree
  | Operation.insert new anchor location =>
    match Tree.insert thickness new anchor location t with
    | Except.ok t2 => t2
    | Except.error _ => t
  | Operation.remove id =>
    match Tree.remove thickness id t with
    | Except.ok t2 => t2
    | Except.error _ => t
  | Operation.setGeometry rect => (Tree.setGeometry thickness rect t).1
  | Operation.dragSeparator path index delta =>
    match Tree.dragSeparator thickness path index delta t with
    | Except.ok t2 => t2
    | Except.error _ => t
  | Operation.restore data =>
    match Tree.restore thickness resolvePanel data t with
    | Except.ok t2 => t2
    | Except.error _ => t

/-- Modelled from the spec: the tree reached from the empty tree by a sequence of public
operations (absent tree code). -/
def Tree.run (thickness : Nat) (resolvePanel : Nat → Option PanelHandle)
    (ops : List Operation) : Tree :=
  ops.foldl (Tree.apply thickness resolvePanel) Tree.empty

/-- Modelled from the spec: the Containers of the tree ("for all Containers", section 8; no
code states it). -/
def Tree.containers (t : Tree) : List Node :=
  match t.root with
  | none => []
  | some n => Node.containers n

/-- Modelled from the spec: the identities of the Items of the tree, in layout order (no code
states it). -/
def Tree.itemIds (t : Tree) : List Nat :=
  match t.root with
  | none => []
  | some n => Node.itemIds n

/-- Modelled from the spec: the minimality invariant of section 8 on the tree, which no code
states: it "never contains a Container with fewer than two children". -/
def Tree.minimal (t : Tree) : Bool :=
  match t.root with
  | none => true
  | some n => Node.minimal n

/-! ### Concrete inputs, used to exercise the definitions -/

/-- An Item for panel `id` with minimum width `minWidth`, not yet laid out. -/
def sampleItem (id minWidth : Nat) : Item :=
  { id := id, panel := id, tabs := [],
    geometry := { x := 0, y := 0, width := 0, height := 0 },
    minSize := { width := minWidth, height := 0 }, visible := true }

/-- A registry lookup that knows no panel. -/
def noPanels : Nat → Option PanelHandle := fun _ => none

/-- The operations `insert(A, null, Left)` and `insert(B, A, Right)` of the first scenario of
section 8, for two Items of minimum width `minWidth`. -/
def sideBySide (minWidth : Nat) : List Operation :=
  [Operation.insert (sampleItem 1 minWidth) none Location.left,
   Operation.insert (sampleItem 2 minWidth) (some 1) Location.right]

/-- A registry lookup that knows every panel; panel 1 has no minimum size, the others have
minimum height 40. -/
def tallPanels : Nat → Option PanelHandle :=
  fun p => some { handle := p, minSize := { width := 0, height := if p = 1 then 0 else 40 } }

/-- Persisted data for the tree `[A, VContainer(B, C)]` of section 8, with equal weights. -/
def besideStacked : SavedNode :=
  SavedNode.container 1 0
    [SavedNode.item 1 1 true,
     SavedNode.container 1 1 [SavedNode.item 1 2 true, SavedNode.item 1 3 true]]

/-- An Item as `restore` builds it for panel `id` of `tallPanels`, laid out in `geometry`. -/
def restoredItem (id minHeight : Nat) (geometry : Rect) : Item :=
  { id := id, panel := id, tabs := [], geometry := geometry,
    minSize := { width := 0, height := minHeight }, visible := true }

/-- The Container of B and C of `besideStacked` after `setGeometry` with 200 x 50 and
separator thickness 5: the two minimum heights of 40 do not fit into 50. -/
def stackedLaidOut : Node :=
  Node.container 98 Orientation.vertical ⟨102, 0, 98, 50⟩
    [Node.item 1 (restoredItem 2 40 ⟨102, 0, 98, 40⟩),
     Node.item 1 (restoredItem 3 40 ⟨102, 45, 98, 40⟩)]

/-- The root Container of `besideStacked` after `setGeometry` with 200 x 50 and separator
thickness 5. -/
def besideStackedLaidOut : Node :=
  Node.container 1 Orientation.horizontal ⟨0, 0, 200, 50⟩
    [Node.item 97 (restoredItem 1 0 ⟨0, 0, 97, 50⟩), stackedLaidOut]

/-- The extents of the children of a Container along its split axis. -/
def Node.childExtents : Node → List Nat
  | Node.container _ o _ cs => cs.map (fun c => c.geometry.extent o)
  | Node.item _ _ => []

/-- Two Items of minimum widths 60 and 0 laid out side by side in width 200, without
separator thickness, each holding 100. -/
def evenPair : Node :=
  Node.container 1 Orientation.horizontal ⟨0, 0, 200, 50⟩
    [Node.item 100 { sampleItem 1 60 with geometry := ⟨0, 0, 100, 50⟩ },
     Node.item 100 { sampleItem 2 0 with geometry := ⟨100, 0, 100, 50⟩ }]

mutual
/-- Equality test on nodes. -/
def Node.beq : Node → Node → Bool
  | Node.item w it, Node.item w2 it2 => decide (w = w2) && decide (it = it2)
  | Node.container w o g cs, Node.container w2 o2 g2 cs2 =>
    decide (w = w2) && decide (o = o2) && decide (g = g2) && Node.beqL cs cs2
  | _, _ => false
/-- Equality test on lists of nodes. -/
def Node.beqL : List Node → List Node → Bool
  | [], [] => true
  | c :: cs, d :: ds => Node.beq c d && Node.beqL cs ds
  | _, _ => false
end

end KDDockWidgets.MultiSplitter

/-! # Theorems -/

namespace KDDockWidgets

/-! ## Config: the flag word -/

theorem testBit_flagsNot (m i : Nat) :
    (flagsNot m).testBit i = (decide (i < 32) && !m.testBit i) := by
  unfold flagsNot
  have h : m % 2 ^ 32 < 2 ^ 32 := Nat.mod_lt _ (by norm_num)
  have e : 2 ^ 32 - 1 - m % 2 ^ 32 = 2 ^ 32 - (m % 2 ^ 32 + 1) := by omega
  rw [e, Nat.testBit_two_pow_sub_succ h, Nat.testBit_mod_two_pow]
  by_cases hi : i < 32 <;> simp [hi]

theorem land_flagsNot_self (f a : Nat) : (f &&& flagsNot a) &&& a = 0 := by
  apply Nat.eq_of_testBit_eq
  intro i
  simp [Nat.testBit_land, testBit_flagsNot]

theorem land_flagsNot_of_land_eq_zero (g a x : Nat) (h : g &&& x = 0) :
    (g &&& flagsNot a) &&& x = 0 := by
  apply Nat.eq_of_testBit_eq
  intro i
  have hi : (g &&& x).testBit i = false := by rw [h]; simp
  simp only [Nat.testBit_land, Nat.zero_testBit] at hi ⊢
  cases hg : g.testBit i <;> cases hx : x.testBit i <;> simp_all

theorem bothDecorations_eq_false_iff (v : FlagValues) (f : Nat) :
    bothDecorations v f = false ↔
      (f &&& v.Flag_AeroSnapWithClientDecos = 0 ∨ f &&& v.Flag_NativeTitleBar = 0) := by
  unfold bothDecorations flagsAnd
  by_cases h1 : f &&& v.Flag_AeroSnapWithClientDecos = 0 <;>
    by_cases h2 : f &&& v.Flag_NativeTitleBar = 0 <;> simp [h1, h2]

/-- After `m_flags & ~Flag_AeroSnapWithClientDecos` the two decorations are not both set. -/
theorem bothDecorations_clear (v : FlagValues) (f : Nat) :
    bothDecorations v (f &&& flagsNot v.Flag_AeroSnapWithClientDecos) = false := by
  rw [bothDecorations_eq_false_iff]
  exact Or.inl (land_flagsNot_self _ _)

/-- The two trailing blocks of `fixFlags` (QtQuick, developer mode) keep the exclusion. -/
theorem bothDecorations_tail (v : FlagValues) (c1 c2 : Bool) (f : Nat)
    (h : bothDecorations v f = false) :
    bothDecorations v
      (if c1 then
        (if flagsAnd (if c2 then f &&& flagsNot v.Flag_AeroSnapWithClientDecos else f)
            v.Flag_internal_NoAeroSnap then
          (if c2 then f &&& flagsNot v.Flag_AeroSnapWithClientDecos else f) &&&
            flagsNot v.Flag_AeroSnapWithClientDecos
        else (if c2 then f &&& flagsNot v.Flag_AeroSnapWithClientDecos else f))
      else (if c2 then f &&& flagsNot v.Flag_AeroSnapWithClientDecos else f)) = false := by
  have h2 : bothDecorations v (if c2 then f &&& flagsNot v.Flag_AeroSnapWithClientDecos else f)
      = false := by
    cases c2
    · simpa using h
    · simpa using bothDecorations_clear v f
  generalize (if c2 then f &&& flagsNot v.Flag_AeroSnapWithClientDecos else f) = g at h2 ⊢
  cases c1
  · simpa using h2
  · by_cases hc : flagsAnd g v.Flag_internal_NoAeroSnap = true
    · simpa [hc] using bothDecorations_clear v g
    · simpa [hc] using h2

/-- The mutual-exclusion block of the Windows branch. -/
theorem bothDecorations_windows (v : FlagValues) (g : Nat) :
    bothDecorations v
      (if flagsAnd g v.Flag_AeroSnapWithClientDecos && flagsAnd g v.Flag_NativeTitleBar then
        g &&& flagsNot v.Flag_AeroSnapWithClientDecos
      else g) = false := by
  by_cases hc : (flagsAnd g v.Flag_AeroSnapWithClientDecos && flagsAnd g v.Flag_NativeTitleBar) = true
  · rw [if_pos hc]
    exact bothDecorations_clear v g
  · rw [if_neg hc]
    simpa [bothDecorations] using hc

theorem fixFlags_exclusive (v : FlagValues) (p : Platform) (f : Nat) :
    bothDecorations v (fixFlags v p f) = false := by
  obtain ⟨os, q, d⟩ := p
  unfold fixFlags
  cases os with
  | windows major =>
    exact bothDecorations_tail v d (false || q) _ (bothDecorations_windows v _)
  | macos =>
    exact bothDecorations_tail v d (false || q) _ (bothDecorations_clear v _)
  | other w =>
    have h := bothDecorations_tail v d false _
      (bothDecorations_clear v (if w then f ||| v.Flag_NativeTitleBar
        else (f &&& flagsNot v.Flag_NativeTitleBar) &&& flagsNot v.Flag_AeroSnapWithClientDecos))
    simpa using h

theorem step_exclusive {R L : Type} (c : Collaborators R L) (v : FlagValues) (p : Platform)
    (s : State R L) (e : ConfigEvent R) (h : bothDecorations v s.m_flags = false) :
    bothDecorations v (Config.step c v p s e).m_flags = false := by
  cases e with
  | setFlags f =>
    show bothDecorations v (Config.setFlags c v p f s).m_flags = false
    unfold Config.setFlags
    by_cases hr : (!c.isEmpty s.registry true) = true
    · rw [if_pos hr]; exact h
    · rw [if_neg hr]; exact fixFlags_exclusive v p f
  | registryBecomes r => exact h

theorem foldl_step_exclusive {R L : Type} (c : Collaborators R L) (v : FlagValues) (p : Platform)
    (events : List (ConfigEvent R)) (s : State R L) (h : bothDecorations v s.m_flags = false) :
    bothDecorations v (events.foldl (Config.step c v p) s).m_flags = false := by
  induction events generalizing s with
  | nil => exact h
  | cons e es ih => exact ih _ (step_exclusive c v p s e h)

/-- C1: `Config::setFlags` is startup-only. Whenever
`DockRegistry::isEmpty(excludeBeingDeleted = true)` is false, `setFlags(f)` returns the state
it was given: `flags()` is what it was and so are the `Layouting::Config` flags, the
`LazyResize` bit among them. -/
theorem setFlags_startup_only {R L : Type} (c : Collaborators R L) (v : FlagValues)
    (p : Platform) (f : Nat) (s : State R L) (h : c.isEmpty s.registry true = false) :
    Config.setFlags c v p f s = s ∧
    Config.flags (Config.setFlags c v p f s) = Config.flags s ∧
    c.layoutingFlags (Config.setFlags c v p f s).layouting = c.layoutingFlags s.layouting ∧
    flagsAnd (c.layoutingFlags (Config.setFlags c v p f s).layouting) v.Layouting_LazyResize =
      flagsAnd (c.layoutingFlags s.layouting) v.Layouting_LazyResize := by
  have e : Config.setFlags c v p f s = s := by
    unfold Config.setFlags
    simp [h]
  rw [e]
  exact ⟨rfl, rfl, rfl, rfl⟩

theorem setFlags_startup_only_witness :
    plainCollaborators.isEmpty 3 true = false ∧
    Config.setFlags plainCollaborators plainFlagValues ⟨OS.windows 10, false, false⟩ 1025
        ⟨2, 3, ⟨0, 5⟩⟩ = ⟨2, 3, ⟨0, 5⟩⟩ ∧
    Config.flags (Config.setFlags plainCollaborators plainFlagValues ⟨OS.windows 10, false, false⟩
        1025 ⟨2, 3, ⟨0, 5⟩⟩) = Config.flags (⟨2, 3, ⟨0, 5⟩⟩ : State Nat PlainLayouting) :=
  ⟨by decide,
   (setFlags_startup_only plainCollaborators plainFlagValues ⟨OS.windows 10, false, false⟩ 1025
      ⟨2, 3, ⟨0, 5⟩⟩ (by decide)).1,
   (setFlags_startup_only plainCollaborators plainFlagValues ⟨OS.windows 10, false, false⟩ 1025
      ⟨2, 3, ⟨0, 5⟩⟩ (by decide)).2.1⟩

/-- C2: `Flag_AeroSnapWithClientDecos` and `Flag_NativeTitleBar` are mutually exclusive. In
every state reached by constructing the `Config` and then calling `setFlags` any number of
times with any arguments, while the registry is empty or not, `flags()` does not have both
set; this holds for every platform branch of `fixFlags` (any Windows version, macOS, Wayland,
X11, with or without QtQuick and developer mode) and any enumerator values. -/
theorem flags_never_both_decorations {R L : Type} (c : Collaborators R L) (v : FlagValues)
    (p : Platform) (registry : R) (layouting : L) (events : List (ConfigEvent R)) :
    bothDecorations v (Config.flags (Config.run c v p registry layouting events)) = false := by
  unfold Config.run Config.flags
  exact foldl_step_exclusive c v p events _ (fixFlags_exclusive v p v.Flag_Default)

/-- C5: `Config::setSeparatorThickness` is startup-only. When the registry is not empty the
call returns the state unchanged, so `separatorThickness()` is what it was; when the registry
is empty the value goes to `Layouting::Config::setSeparatorThickness` and nothing else
changes; and `separatorThickness()` is always the `Layouting::Config` value. -/
theorem setSeparatorThickness_startup_only {R L : Type} (c : Collaborators R L) (value : Int)
    (s : State R L) :
    (c.isEmpty s.registry true = false →
      Config.setSeparatorThickness c value s = s ∧
      Config.separatorThickness c (Config.setSeparatorThickness c value s) =
        Config.separatorThickness c s) ∧
    (c.isEmpty s.registry true = true →
      (Config.setSeparatorThickness c value s).layouting =
        c.layoutingSetSeparatorThickness value s.layouting ∧
      (Config.setSeparatorThickness c value s).m_flags = s.m_flags ∧
      (Config.setSeparatorThickness c value s).registry = s.registry) ∧
    Config.separatorThickness c s = c.layoutingSeparatorThickness s.layouting ∧
    Config.separatorThickness c (Config.setSeparatorThickness c value s) =
      c.layoutingSeparatorThickness (Config.setSeparatorThickness c value s).layouting := by
  refine ⟨?_, ?_, rfl, rfl⟩
  · intro h
    have e : Config.setSeparatorThickness c value s = s := by
      unfold Config.setSeparatorThickness
      simp [h]
    rw [e]
    exact ⟨rfl, rfl⟩
  · intro h
    unfold Config.setSeparatorThickness
    simp [h]

theorem setSeparatorThickness_startup_only_witness :
    (plainCollaborators.isEmpty 3 true = false ∧
      Config.separatorThickness plainCollaborators
        (Config.setSeparatorThickness plainCollaborators 9 ⟨2, 3, ⟨0, 5⟩⟩) = 5) ∧
    (plainCollaborators.isEmpty 0 true = true ∧
      (Config.setSeparatorThickness plainCollaborators 9 ⟨2, 0, ⟨0, 5⟩⟩).layouting = ⟨0, 9⟩) :=
  ⟨⟨by decide,
    ((setSeparatorThickness_startup_only plainCollaborators 9 ⟨2, 3, ⟨0, 5⟩⟩).1 (by decide)).2⟩,
   ⟨by decide,
    ((setSeparatorThickness_startup_only plainCollaborators 9 ⟨2, 0, ⟨0, 5⟩⟩).2.1 (by decide)).1⟩⟩

end KDDockWidgets

namespace KDDockWidgets.MultiSplitter

/-! ## Equality of nodes -/

mutual
theorem Node.eq_of_beq : ∀ (a b : Node), Node.beq a b = true → a = b
  | Node.item w it, Node.item w2 it2, h => by
    simp only [Node.beq, Bool.and_eq_true, decide_eq_true_eq] at h
    rw [h.1, h.2]
  | Node.container w o g cs, Node.container w2 o2 g2 cs2, h => by
    simp only [Node.beq, Bool.and_eq_true, decide_eq_true_eq] at h
    obtain ⟨⟨⟨h1, h2⟩, h3⟩, h4⟩ := h
    rw [h1, h2, h3, Node.eq_of_beqL cs cs2 h4]
  | Node.item _ _, Node.container _ _ _ _, h => by simp [Node.beq] at h
  | Node.container _ _ _ _, Node.item _ _, h => by simp [Node.beq] at h
theorem Node.eq_of_beqL : ∀ (as bs : List Node), Node.beqL as bs = true → as = bs
  | [], [], _ => rfl
  | [], _ :: _, h => by simp [Node.beqL] at h
  | _ :: _, [], h => by simp [Node.beqL] at h
  | a :: as, b :: bs, h => by
    simp only [Node.beqL, Bool.and_eq_true] at h
    rw [Node.eq_of_beq a b h.1, Node.eq_of_beqL as bs h.2]
end

/-! ## Layout: weights do not matter to geometry, minimums and shape -/

theorem Node.geometry_setWeight (w : Nat) (n : Node) :
    (Node.setWeight w n).geometry = n.geometry := by
  cases n <;> rfl

theorem Node.minExtent_setWeight (th : Nat) (axis : Orientation) (w : Nat) (n : Node) :
    Node.minExtent th axis (Node.setWeight w n) = Node.minExtent th axis n := by
  cases n <;> simp [Node.setWeight, Node.minExtent]

theorem Node.itemIds_setWeight (w : Nat) (n : Node) :
    Node.itemIds (Node.setWeight w n) = Node.itemIds n := by
  cases n <;> simp [Node.setWeight, Node.itemIds]

theorem Node.minimal_setWeight (w : Nat) (n : Node) :
    Node.minimal (Node.setWeight w n) = Node.minimal n := by
  cases n <;> simp [Node.setWeight, Node.minimal]

theorem Node.exactlyCovered_setWeight (th : Nat) (w : Nat) (n : Node) :
    Node.exactlyCovered th (Node.setWeight w n) = Node.exactlyCovered th n := by
  cases n <;> simp [Node.setWeight, Node.exactlyCovered]

theorem Node.minimumsFit_setWeight (th : Nat) (w : Nat) (n : Node) :
    Node.minimumsFit th (Node.setWeight w n) = Node.minimumsFit th n := by
  cases n <;> simp [Node.setWeight, Node.minimumsFit]

theorem Node.sumExtent_map_setWeight (o : Orientation) (f : Node → Nat) (cs : List Node) :
    Node.sumExtent o (cs.map (fun c => Node.setWeight (f c) c)) = Node.sumExtent o cs := by
  unfold Node.sumExtent
  rw [List.map_map]
  congr 1
  apply List.map_congr_left
  intro c _
  simp [Node.geometry_setWeight]

theorem Node.tiles_map_setWeight (th : Nat) (o : Orientation) (g : Rect) (f : Node → Nat) :
    ∀ (cs : List Node) (pos : Nat),
      Node.tiles th o g pos (cs.map (fun c => Node.setWeight (f c) c)) = Node.tiles th o g pos cs
  | [], _ => rfl
  | c :: cs, pos => by
    simp only [List.map_cons, Node.tiles, Node.geometry_setWeight,
      Node.tiles_map_setWeight th o g f cs]

theorem Node.minimalL_map_setWeight (f : Node → Nat) : ∀ (cs : List Node),
    Node.minimalL (cs.map (fun n => Node.setWeight (f n) n)) = Node.minimalL cs
  | [] => rfl
  | c :: cs => by
    simp only [List.map_cons, Node.minimalL, Node.minimal_setWeight,
      Node.minimalL_map_setWeight f cs]

theorem Node.sumMinExtent_map_setWeight (th : Nat) (axis : Orientation) (f : Node → Nat) :
    ∀ (cs : List Node),
      Node.sumMinExtent th axis (cs.map (fun n => Node.setWeight (f n) n)) =
        Node.sumMinExtent th axis cs
  | [] => rfl
  | c :: cs => by
    simp only [List.map_cons, Node.sumMinExtent, Node.minExtent_setWeight,
      Node.sumMinExtent_map_setWeight th axis f cs]

theorem Node.maxMinExtent_map_setWeight (th : Nat) (axis : Orientation) (f : Node → Nat) :
    ∀ (cs : List Node),
      Node.maxMinExtent th axis (cs.map (fun n => Node.setWeight (f n) n)) =
        Node.maxMinExtent th axis cs
  | [] => rfl
  | c :: cs => by
    simp only [List.map_cons, Node.maxMinExtent, Node.minExtent_setWeight,
      Node.maxMinExtent_map_setWeight th axis f cs]

theorem Node.itemIdsL_map_setWeight (f : Node → Nat) : ∀ (cs : List Node),
    Node.itemIdsL (cs.map (fun n => Node.setWeight (f n) n)) = Node.itemIdsL cs
  | [] => rfl
  | c :: cs => by
    simp only [List.map_cons, Node.itemIdsL, Node.itemIds_setWeight,
      Node.itemIdsL_map_setWeight f cs]

theorem Node.length_holdExtents (o : Orientation) (v : Bool) (cs : List Node) :
    (Node.holdExtents o v cs).length = cs.length := by
  unfold Node.holdExtents
  split <;> simp

theorem Node.sumExtent_holdExtents (o : Orientation) (v : Bool) (cs : List Node) :
    Node.sumExtent o (Node.holdExtents o v cs) = Node.sumExtent o cs := by
  unfold Node.holdExtents
  split
  · rfl
  · exact Node.sumExtent_map_setWeight o _ cs

theorem Node.tiles_holdExtents (th : Nat) (o : Orientation) (g : Rect) (v : Bool)
    (cs : List Node) (pos : Nat) :
    Node.tiles th o g pos (Node.holdExtents o v cs) = Node.tiles th o g pos cs := by
  unfold Node.holdExtents
  split
  · rfl
  · exact Node.tiles_map_setWeight th o g _ cs pos

theorem Node.minimalL_holdExtents (o : Orientation) (v : Bool) (cs : List Node) :
    Node.minimalL (Node.holdExtents o v cs) = Node.minimalL cs := by
  unfold Node.holdExtents
  split
  · rfl
  · exact Node.minimalL_map_setWeight _ cs

theorem Node.sumMinExtent_holdExtents (th : Nat) (axis o : Orientation) (v : Bool)
    (cs : List Node) :
    Node.sumMinExtent th axis (Node.holdExtents o v cs) = Node.sumMinExtent th axis cs := by
  unfold Node.holdExtents
  split
  · rfl
  · exact Node.sumMinExtent_map_setWeight th axis _ cs

theorem Node.maxMinExtent_holdExtents (th : Nat) (axis o : Orientation) (v : Bool)
    (cs : List Node) :
    Node.maxMinExtent th axis (Node.holdExtents o v cs) = Node.maxMinExtent th axis cs := by
  unfold Node.holdExtents
  split
  · rfl
  · exact Node.maxMinExtent_map_setWeight th axis _ cs

theorem Node.itemIdsL_holdExtents (o : Orientation) (v : Bool) (cs : List Node) :
    Node.itemIdsL (Node.holdExtents o v cs) = Node.itemIdsL cs := by
  unfold Node.holdExtents
  split
  · rfl
  · exact Node.itemIdsL_map_setWeight _ cs

/-! ## Layout: what `setGeometry` assigns -/

theorem Rect.extent_slice (o : Orientation) (r : Rect) (pos e : Nat) :
    (r.slice o pos e).extent o = e := by
  cases o <;> rfl

theorem Node.geometry_setGeometry (th : Nat) (rect : Rect) (n : Node) :
    (Node.setGeometry th rect n).1.geometry = rect := by
  cases n <;> simp [Node.setGeometry, Node.geometry]

theorem Node.length_layoutChildren (th : Nat) (o : Orientation) (rect : Rect) :
    ∀ (cs : List Node) (es : List Nat) (pos : Nat),
      (Node.layoutChildren th o rect pos es cs).1.length = cs.length
  | [], es, pos => by cases es <;> simp [Node.layoutChildren]
  | c :: cs, [], pos => by simp [Node.layoutChildren]
  | c :: cs, e :: es, pos => by
    simp [Node.layoutChildren, Node.length_layoutChildren th o rect cs es]

theorem Node.sumExtent_layoutChildren (th : Nat) (o : Orientation) (rect : Rect) :
    ∀ (cs : List Node) (es : List Nat) (pos : Nat), es.length = cs.length →
      Node.sumExtent o (Node.layoutChildren th o rect pos es cs).1 = es.sum
  | [], [], pos, _ => by simp [Node.layoutChildren, Node.sumExtent]
  | [], _ :: _, pos, h => by simp at h
  | c :: cs, [], pos, h => by simp at h
  | c :: cs, e :: es, pos, h => by
    have ih := Node.sumExtent_layoutChildren th o rect cs es (pos + e + th) (by simpa using h)
    simp only [Node.sumExtent] at ih ⊢
    simp [Node.layoutChildren, Node.geometry_setGeometry, Rect.extent_slice, ih]

/-- The children laid out by `setGeometry` lie one after the other, a separator apart, each
over the full cross extent. -/
theorem Node.tiles_layoutChildren (th : Nat) (o : Orientation) (rect : Rect) :
    ∀ (cs : List Node) (es : List Nat) (pos : Nat), es.length = cs.length →
      Node.tiles th o rect pos (Node.layoutChildren th o rect pos es cs).1 = true
  | [], [], pos, _ => by simp [Node.layoutChildren, Node.tiles]
  | [], _ :: _, pos, h => by simp at h
  | c :: cs, [], pos, h => by simp at h
  | c :: cs, e :: es, pos, h => by
    have ih := Node.tiles_layoutChildren th o rect cs es (pos + e + th) (by simpa using h)
    simp only [Node.layoutChildren, Node.tiles, Node.geometry_setGeometry, Rect.extent_slice,
      decide_True, Bool.true_and]
    exact ih

theorem sum_addToLast (extra : Nat) : ∀ (l : List Nat), l ≠ [] →
    (addToLast extra l).sum = l.sum + extra
  | [], h => absurd rfl h
  | [e], _ => by simp [addToLast]
  | e :: e2 :: es, _ => by
    have ih := sum_addToLast extra (e2 :: es) (by simp)
    simp only [addToLast, List.sum_cons] at ih ⊢
    omega

theorem length_addToLast (extra : Nat) : ∀ (l : List Nat), (addToLast extra l).length = l.length
  | [] => rfl
  | [e] => rfl
  | e :: e2 :: es => by
    have ih := length_addToLast extra (e2 :: es)
    simp only [addToLast, List.length_cons] at ih ⊢
    omega

/-! ## Layout: `distribute` -/

theorem length_raisedShares (total : Nat) (ws ms : List Nat) (h : ws.length = ms.length) :
    (raisedShares total ws ms).length = ms.length := by
  simp [raisedShares, h]

theorem forall₂_raisedShares (total : Nat) (W : Nat) : ∀ (ws ms : List Nat),
    ws.length = ms.length →
      List.Forall₂ (fun x m => m ≤ x)
        (List.zipWith (fun w m => max m (total * w / W)) ws ms) ms
  | [], [], _ => List.Forall₂.nil
  | [], _ :: _, h => by simp at h
  | _ :: _, [], h => by simp at h
  | w :: ws, m :: ms, h => by
    simp only [List.zipWith_cons_cons]
    exact List.Forall₂.cons (Nat.le_max_left _ _)
      (forall₂_raisedShares total W ws ms (by simpa using h))

theorem sum_le_of_forall₂ : ∀ (xs ms : List Nat), List.Forall₂ (fun x m => m ≤ x) xs ms →
    ms.sum ≤ xs.sum
  | [], _, h => by cases h; simp
  | x :: xs, _, h => by
    cases h with
    | cons h1 h2 =>
      have ih := sum_le_of_forall₂ xs _ h2
      simp only [List.sum_cons]
      omega

theorem length_takeBack : ∀ (excess : Nat) (xs ms : List Nat),
    (takeBack excess xs ms).length = xs.length
  | _, [], _ => by simp [takeBack]
  | _, _ :: _, [] => by simp [takeBack]
  | e, x :: xs, m :: ms => by
    simp [takeBack, length_takeBack _ xs ms]

/-- Taking back never goes below a minimum. -/
theorem forall₂_takeBack : ∀ (excess : Nat) (xs ms : List Nat),
    List.Forall₂ (fun x m => m ≤ x) xs ms →
      List.Forall₂ (fun x m => m ≤ x) (takeBack excess xs ms) ms
  | _, [], _, h => by cases h; simp [takeBack]
  | e, x :: xs, _, h => by
    cases h with
    | cons h1 h2 =>
      simp only [takeBack]
      refine List.Forall₂.cons ?_ (forall₂_takeBack _ xs _ h2)
      omega

/-- What is taken back is the whole excess, as long as the slots have that much above their
minimums. -/
theorem sum_takeBack : ∀ (excess : Nat) (xs ms : List Nat),
    List.Forall₂ (fun x m => m ≤ x) xs ms → excess ≤ xs.sum - ms.sum →
      (takeBack excess xs ms).sum = xs.sum - excess
  | e, [], _, h, he => by
    cases h
    simp only [List.sum_nil] at he
    simp [takeBack]
  | e, x :: xs, _, h, he => by
    cases h with
    | cons h1 h2 =>
      rename_i m ms
      have hs := sum_le_of_forall₂ xs ms h2
      simp only [List.sum_cons] at he
      have ih := sum_takeBack (e - min e (x - m)) xs ms h2 (by omega)
      simp only [takeBack, List.sum_cons, ih]
      omega

theorem length_distribute (total : Nat) (ws ms : List Nat) (h : ws.length = ms.length) :
    (distribute total ws ms).1.length = ms.length := by
  unfold distribute
  by_cases ho : total < ms.sum
  · simp [ho]
  · simp [ho, length_takeBack, length_raisedShares total ws ms h]

/-- Without overflow the slots of `distribute` do not exceed `total`. -/
theorem sum_distribute_le (total : Nat) (ws ms : List Nat) (hl : ws.length = ms.length)
    (h : (distribute total ws ms).2 = false) : (distribute total ws ms).1.sum ≤ total := by
  unfold distribute at h ⊢
  by_cases ho : total < ms.sum
  · simp [ho] at h
  · simp only [ho, if_false]
    have hf := forall₂_raisedShares total ws.sum ws ms hl
    have hs := sum_le_of_forall₂ _ _ hf
    have := sum_takeBack ((raisedShares total ws ms).sum - total) (raisedShares total ws ms) ms
      hf (by unfold raisedShares; omega)
    rw [this]
    omega

/-- With overflow the slots of `distribute` are the minimums and exceed `total`. -/
theorem sum_distribute_gt (total : Nat) (ws ms : List Nat)
    (h : (distribute total ws ms).2 = true) : total < (distribute total ws ms).1.sum := by
  unfold distribute at h ⊢
  by_cases ho : total < ms.sum
  · simp [ho]
  · simp [ho] at h

/-- The overflow report of `distribute` says exactly that the minimums exceed `total`. -/
theorem distribute_overflow_iff (total : Nat) (ws ms : List Nat) :
    (distribute total ws ms).2 = true ↔ total < ms.sum := by
  unfold distribute
  by_cases ho : total < ms.sum <;> simp [ho]

/-- Every slot of `distribute` is at least its minimum. -/
theorem forall₂_distribute (total : Nat) (ws ms : List Nat) (h : ws.length = ms.length) :
    List.Forall₂ (fun e m => m ≤ e) (distribute total ws ms).1 ms := by
  unfold distribute
  by_cases ho : total < ms.sum
  · simp only [ho, if_true]
    exact List.forall₂_same.mpr (fun _ _ => Nat.le_refl _)
  · simp only [ho, if_false]
    exact forall₂_takeBack _ _ _ (forall₂_raisedShares total ws.sum ws ms h)

theorem Node.sumMinExtent_eq (th : Nat) (axis : Orientation) : ∀ (cs : List Node),
    Node.sumMinExtent th axis cs = (cs.map (Node.minExtent th axis)).sum
  | [] => by simp [Node.sumMinExtent]
  | c :: cs => by simp [Node.sumMinExtent, Node.sumMinExtent_eq th axis cs]

/-! ## Layout: `distribute` is proportional where the minimums allow it -/

theorem sum_shares_mul_le (s W : Nat) : ∀ (ws : List Nat),
    (ws.map (fun w => s * w / W)).sum * W ≤ s * ws.sum
  | [] => by simp
  | w :: ws => by
    have ih := sum_shares_mul_le s W ws
    simp only [List.map_cons, List.sum_cons, Nat.add_mul, Nat.mul_add]
    have h := Nat.div_mul_le_self (s * w) W
    omega

theorem sum_shares_le (s : Nat) (ws : List Nat) :
    (ws.map (fun w => s * w / ws.sum)).sum ≤ s := by
  by_cases hW : ws.sum = 0
  · have : (ws.map (fun w => s * w / ws.sum)) = ws.map (fun _ => 0) := by
      apply List.map_congr_left
      intro w _
      simp [hW]
    rw [this]
    simp
  · have h := sum_shares_mul_le s ws.sum ws
    exact Nat.le_of_mul_le_mul_right h (Nat.pos_of_ne_zero hW)

theorem takeBack_zero : ∀ (xs ms : List Nat), takeBack 0 xs ms = xs
  | [], _ => by simp [takeBack]
  | _ :: _, [] => by simp [takeBack]
  | x :: xs, m :: ms => by simp [takeBack, takeBack_zero xs ms]

theorem zipWith_max_of_fit (total W : Nat) : ∀ (ws ms : List Nat),
    List.Forall₂ (fun w m => m ≤ total * w / W) ws ms →
      List.zipWith (fun w m => max m (total * w / W)) ws ms = ws.map (fun w => total * w / W)
  | [], _, h => by cases h; rfl
  | w :: ws, _, h => by
    cases h with
    | cons h1 h2 =>
      simp only [List.zipWith_cons_cons, List.map_cons, zipWith_max_of_fit total W ws _ h2,
        Nat.max_eq_right h1]

/-- Where every proportional share of `total`, rounded down, is at least the minimum of its
slot, `distribute` returns the proportional shares. -/
theorem distribute_of_shares_fit (total : Nat) (ws ms : List Nat)
    (h : List.Forall₂ (fun w m => m ≤ total * w / ws.sum) ws ms) :
    distribute total ws ms = (ws.map (fun w => total * w / ws.sum), false) := by
  have hr := zipWith_max_of_fit total ws.sum ws ms h
  have hs := sum_shares_le total ws
  have hm : ms.sum ≤ (ws.map (fun w => total * w / ws.sum)).sum := by
    have := sum_le_of_forall₂ (ws.map (fun w => total * w / ws.sum)) ms
      (by
        rw [List.forall₂_map_left_iff]
        exact h)
    exact this
  unfold distribute raisedShares
  have ho : ¬ total < ms.sum := by omega
  rw [if_neg ho, hr]
  have he : (ws.map (fun w => total * w / ws.sum)).sum - total = 0 := by omega
  rw [he, takeBack_zero]

/-- Examples of a layout that is kept and of a drag that keeps what it transfers: two Items
of minimum widths 60 and 0 in width 200, no separator thickness. Equal weights give 100 and
100, which is `evenPair`; laying `evenPair` out again, or dragging its separator by 0,
changes no extent; a drag of +10 moves exactly 10; a drag of -100 stops at the minimum of
the first Item. -/
theorem drag_transfers_extent_examples :
    (Tree.run 0 noPanels (Operation.setGeometry ⟨0, 0, 200, 50⟩ ::
      [Operation.insert (sampleItem 1 60) none Location.left,
       Operation.insert (sampleItem 2 0) (some 1) Location.right])).root = some evenPair ∧
    (Node.setGeometry 0 ⟨0, 0, 200, 50⟩ evenPair).1 = evenPair ∧
    Node.dragSeparator 0 0 0 evenPair = some evenPair ∧
    (Node.dragSeparator 0 0 10 evenPair).map Node.childExtents = some [110, 90] ∧
    (Node.dragSeparator 0 0 (-100) evenPair).map Node.childExtents = some [60, 140] :=
  ⟨rfl, rfl, rfl, by decide, by decide⟩

/-! ## Layout: `setGeometry` keeps minimums, Items and shape -/

mutual
theorem Node.minExtent_setGeometry (th : Nat) (axis : Orientation) : ∀ (n : Node) (rect : Rect),
    Node.minExtent th axis (Node.setGeometry th rect n).1 = Node.minExtent th axis n
  | Node.item w it, rect => by simp [Node.setGeometry, Node.minExtent]
  | Node.container w o g cs, rect => by
    have ih := Node.minExtentL_layoutChildren th axis cs o rect
    simp only [Node.setGeometry, Node.minExtent, Node.sumMinExtent_holdExtents,
      Node.maxMinExtent_holdExtents, Node.length_holdExtents, Node.length_layoutChildren,
      (ih _ _).1, (ih _ _).2]
theorem Node.minExtentL_layoutChildren (th : Nat) (axis : Orientation) : ∀ (cs : List Node)
    (o : Orientation) (rect : Rect) (pos : Nat) (es : List Nat),
    Node.sumMinExtent th axis (Node.layoutChildren th o rect pos es cs).1 =
        Node.sumMinExtent th axis cs ∧
      Node.maxMinExtent th axis (Node.layoutChildren th o rect pos es cs).1 =
        Node.maxMinExtent th axis cs
  | [], o, rect, pos, es => by cases es <;> simp [Node.layoutChildren]
  | c :: cs, o, rect, pos, [] => by simp [Node.layoutChildren]
  | c :: cs, o, rect, pos, e :: es => by
    have ih := Node.minExtentL_layoutChildren th axis cs o rect (pos + e + th) es
    simp only [Node.layoutChildren, Node.sumMinExtent, Node.maxMinExtent,
      Node.minExtent_setGeometry th axis c, ih.1, ih.2, and_self]
end

mutual
theorem Node.itemIds_setGeometry (th : Nat) : ∀ (n : Node) (rect : Rect),
    Node.itemIds (Node.setGeometry th rect n).1 = Node.itemIds n
  | Node.item w it, rect => by simp [Node.setGeometry, Node.itemIds]
  | Node.container w o g cs, rect => by
    simp only [Node.setGeometry, Node.itemIds, Node.itemIdsL_holdExtents,
      Node.itemIdsL_layoutChildren th cs]
theorem Node.itemIdsL_layoutChildren (th : Nat) : ∀ (cs : List Node) (o : Orientation)
    (rect : Rect) (pos : Nat) (es : List Nat),
    Node.itemIdsL (Node.layoutChildren th o rect pos es cs).1 = Node.itemIdsL cs
  | [], o, rect, pos, es => by cases es <;> simp [Node.layoutChildren]
  | c :: cs, o, rect, pos, [] => by simp [Node.layoutChildren]
  | c :: cs, o, rect, pos, e :: es => by
    simp only [Node.layoutChildren, Node.itemIdsL, Node.itemIds_setGeometry th c,
      Node.itemIdsL_layoutChildren th cs]
end

mutual
theorem Node.minimal_setGeometry (th : Nat) : ∀ (n : Node) (rect : Rect),
    Node.minimal (Node.setGeometry th rect n).1 = Node.minimal n
  | Node.item w it, rect => by simp [Node.setGeometry, Node.minimal]
  | Node.container w o g cs, rect => by
    simp only [Node.setGeometry, Node.minimal, Node.length_holdExtents,
      Node.length_layoutChildren, Node.minimalL_holdExtents]
    rw [Node.minimalL_layoutChildren th cs]
theorem Node.minimalL_layoutChildren (th : Nat) : ∀ (cs : List Node) (o : Orientation)
    (rect : Rect) (pos : Nat) (es : List Nat),
    Node.minimalL (Node.layoutChildren th o rect pos es cs).1 = Node.minimalL cs
  | [], o, rect, pos, es => by cases es <;> simp [Node.layoutChildren]
  | c :: cs, o, rect, pos, [] => by simp [Node.layoutChildren]
  | c :: cs, o, rect, pos, e :: es => by
    simp only [Node.layoutChildren, Node.minimalL]
    rw [Node.minimal_setGeometry th c, Node.minimalL_layoutChildren th cs]
end

/-! ## Layout: coverage at one Container -/

/-- After `setGeometry` a Container with at least one child is exactly covered, without gap
or overlap, if and only if its extent suffices for the minimums of its children and the
separators. -/
theorem Node.exactlyCovered_setGeometry_iff (th : Nat) (rect : Rect) (w : Nat) (o : Orientation)
    (g : Rect) (cs : List Node) (hlen : 1 ≤ cs.length) :
    Node.exactlyCovered th (Node.setGeometry th rect (Node.container w o g cs)).1 = true ↔
      Node.minimumsFit th (Node.setGeometry th rect (Node.container w o g cs)).1 = true := by
  have hdl := length_distribute (rect.extent o - th * (cs.length - 1)) (cs.map Node.weight)
    (cs.map (Node.minExtent th o)) (by simp)
  have hel : (addToLast (rect.extent o - th * (cs.length - 1) -
      (distribute (rect.extent o - th * (cs.length - 1)) (cs.map Node.weight)
        (cs.map (Node.minExtent th o))).1.sum)
      (distribute (rect.extent o - th * (cs.length - 1)) (cs.map Node.weight)
        (cs.map (Node.minExtent th o))).1).length = cs.length := by
    rw [length_addToLast, hdl]
    simp
  have hne : (distribute (rect.extent o - th * (cs.length - 1)) (cs.map Node.weight)
        (cs.map (Node.minExtent th o))).1 ≠ [] := by
    intro h0
    rw [h0] at hdl
    simp at hdl
    omega
  have hmin := (Node.minExtentL_layoutChildren th o cs o rect (rect.start o)
    (addToLast (rect.extent o - th * (cs.length - 1) -
      (distribute (rect.extent o - th * (cs.length - 1)) (cs.map Node.weight)
        (cs.map (Node.minExtent th o))).1.sum)
      (distribute (rect.extent o - th * (cs.length - 1)) (cs.map Node.weight)
        (cs.map (Node.minExtent th o))).1)).1
  simp only [Node.setGeometry, Node.exactlyCovered, Node.minimumsFit, Bool.and_eq_true,
    decide_eq_true_eq, Node.sumExtent_holdExtents, Node.tiles_holdExtents,
    Node.length_holdExtents, Node.length_layoutChildren, Node.sumMinExtent_holdExtents,
    Node.tiles_layoutChildren th o rect cs _ _ hel, and_true, hmin,
    Node.sumExtent_layoutChildren th o rect cs _ _ hel, sum_addToLast _ _ hne]
  rw [Node.sumMinExtent_eq]
  cases hd : (distribute (rect.extent o - th * (cs.length - 1)) (cs.map Node.weight)
        (cs.map (Node.minExtent th o))).2 with
  | false =>
    have h1 := sum_distribute_le _ _ _ (by simp) hd
    have h2 : ¬ rect.extent o - th * (cs.length - 1) < (cs.map (Node.minExtent th o)).sum := by
      intro hlt
      have := (distribute_overflow_iff _ (cs.map Node.weight) _).mpr hlt
      rw [hd] at this
      exact absurd this (by simp)
    omega
  | true =>
    have h1 := sum_distribute_gt _ _ _ hd
    have h2 := (distribute_overflow_iff _ _ _).mp hd
    omega

/-! ## Layout: coverage at every Container -/

theorem Node.setWeight_weight (n : Node) : Node.setWeight n.weight n = n := by
  cases n <;> rfl

theorem Node.mem_containers_setWeight (w : Nat) (n c : Node)
    (h : c ∈ Node.containers (Node.setWeight w n)) :
    ∃ c2 ∈ Node.containers n, ∃ w2, c = Node.setWeight w2 c2 := by
  cases n with
  | item w0 it => simp [Node.setWeight, Node.containers] at h
  | container w0 o g cs =>
    simp only [Node.setWeight, Node.containers, List.mem_cons] at h ⊢
    rcases h with h | h
    · exact ⟨Node.container w0 o g cs, Or.inl rfl, w, by rw [h]⟩
    · exact ⟨c, Or.inr h, c.weight, (Node.setWeight_weight c).symm⟩

theorem Node.mem_containersL_map_setWeight (f : Node → Nat) (c : Node) : ∀ (cs : List Node),
    c ∈ Node.containersL (cs.map (fun n => Node.setWeight (f n) n)) →
      ∃ c2 ∈ Node.containersL cs, ∃ w2, c = Node.setWeight w2 c2
  | [], h => by simp [Node.containersL] at h
  | n :: cs, h => by
    simp only [List.map_cons, Node.containersL, List.mem_append] at h ⊢
    rcases h with h | h
    · obtain ⟨c2, hc2, w2, e⟩ := Node.mem_containers_setWeight _ n c h
      exact ⟨c2, Or.inl hc2, w2, e⟩
    · obtain ⟨c2, hc2, w2, e⟩ := Node.mem_containersL_map_setWeight f c cs h
      exact ⟨c2, Or.inr hc2, w2, e⟩

theorem Node.mem_containersL_holdExtents (o : Orientation) (v : Bool) (c : Node)
    (cs : List Node) (h : c ∈ Node.containersL (Node.holdExtents o v cs)) :
    ∃ c2 ∈ Node.containersL cs, ∃ w2, c = Node.setWeight w2 c2 := by
  unfold Node.holdExtents at h
  split at h
  · exact ⟨c, h, c.weight, (Node.setWeight_weight c).symm⟩
  · exact Node.mem_containersL_map_setWeight _ c cs h

mutual
theorem Node.coverage_setGeometry (th : Nat) : ∀ (n : Node) (rect : Rect),
    Node.minimal n = true → ∀ c ∈ Node.containers (Node.setGeometry th rect n).1,
      (Node.exactlyCovered th c = true ↔ Node.minimumsFit th c = true)
  | Node.item w it, rect, _, c, hc => by simp [Node.setGeometry, Node.containers] at hc
  | Node.container w o g cs, rect, hm, c, hc => by
    simp only [Node.minimal, Bool.and_eq_true, decide_eq_true_eq] at hm
    have hroot := Node.exactlyCovered_setGeometry_iff th rect w o g cs (by omega)
    simp only [Node.setGeometry] at hc hroot
    simp only [Node.containers, List.mem_cons] at hc
    rcases hc with hc | hc
    · rw [hc]
      exact hroot
    · obtain ⟨c2, hc2, w2, e⟩ := Node.mem_containersL_holdExtents o _ c _ hc
      rw [e, Node.exactlyCovered_setWeight, Node.minimumsFit_setWeight]
      refine Node.coverage_layoutChildren th cs o rect _ _ hm.2 ?_ c2 hc2
      rw [length_addToLast, length_distribute _ _ _ (by simp)]
      simp
theorem Node.coverage_layoutChildren (th : Nat) : ∀ (cs : List Node) (o : Orientation)
    (rect : Rect) (pos : Nat) (es : List Nat),
    Node.minimalL cs = true → es.length = cs.length →
      ∀ c ∈ Node.containersL (Node.layoutChildren th o rect pos es cs).1,
        (Node.exactlyCovered th c = true ↔ Node.minimumsFit th c = true)
  | [], o, rect, pos, es, _, _, c, hc => by
    cases es <;> simp [Node.layoutChildren, Node.containersL] at hc
  | n :: cs, o, rect, pos, [], _, h, _, _ => by simp at h
  | n :: cs, o, rect, pos, e :: es, hm, h, c, hc => by
    simp only [Node.minimalL, Bool.and_eq_true] at hm
    simp only [Node.layoutChildren, Node.containersL, List.mem_append] at hc
    rcases hc with hc | hc
    · exact Node.coverage_setGeometry th n _ hm.1 c hc
    · exact Node.coverage_layoutChildren th cs o rect _ es hm.2 (by simpa using h) c hc
end

theorem Tree.coverage_tree_setGeometry (th : Nat) (rect : Rect) (t : Tree)
    (hm : Tree.minimal t = true) :
    ∀ c ∈ Tree.containers (Tree.setGeometry th rect t).1,
      (Node.exactlyCovered th c = true ↔ Node.minimumsFit th c = true) := by
  unfold Tree.minimal at hm
  unfold Tree.setGeometry Tree.containers
  cases hr : t.root with
  | none => simp
  | some n =>
    simp only [hr] at hm
    exact Node.coverage_setGeometry th n rect hm

/-! ## Layout: the constraint-violation report -/

theorem Node.all_containers_setWeight (p : Node → Bool)
    (hp : ∀ (w : Nat) (n : Node), p (Node.setWeight w n) = p n) (w : Nat) (n : Node) :
    (Node.containers (Node.setWeight w n)).all p = (Node.containers n).all p := by
  cases n with
  | item w0 it => rfl
  | container w0 o g cs =>
    have := hp w (Node.container w0 o g cs)
    simp only [Node.setWeight] at this
    simp only [Node.setWeight, Node.containers, List.all_cons, this]

theorem Node.all_containersL_map_setWeight (p : Node → Bool)
    (hp : ∀ (w : Nat) (n : Node), p (Node.setWeight w n) = p n) (f : Node → Nat) :
    ∀ (cs : List Node),
      (Node.containersL (cs.map (fun n => Node.setWeight (f n) n))).all p =
        (Node.containersL cs).all p
  | [] => rfl
  | n :: cs => by
    simp only [List.map_cons, Node.containersL, List.all_append,
      Node.all_containers_setWeight p hp, Node.all_containersL_map_setWeight p hp f cs]

theorem Node.all_containersL_holdExtents (p : Node → Bool)
    (hp : ∀ (w : Nat) (n : Node), p (Node.setWeight w n) = p n) (o : Orientation) (v : Bool)
    (cs : List Node) :
    (Node.containersL (Node.holdExtents o v cs)).all p = (Node.containersL cs).all p := by
  unfold Node.holdExtents
  split
  · rfl
  · exact Node.all_containersL_map_setWeight p hp _ cs

mutual
theorem Node.violation_setGeometry (th : Nat) : ∀ (n : Node) (rect : Rect),
    (Node.setGeometry th rect n).2 =
      !((Node.containers (Node.setGeometry th rect n).1).all (Node.minimumsFit th))
  | Node.item w it, rect => by simp [Node.setGeometry, Node.containers]
  | Node.container w o g cs, rect => by
    have hel : (addToLast (rect.extent o - th * (cs.length - 1) -
        (distribute (rect.extent o - th * (cs.length - 1)) (cs.map Node.weight)
          (cs.map (Node.minExtent th o))).1.sum)
        (distribute (rect.extent o - th * (cs.length - 1)) (cs.map Node.weight)
          (cs.map (Node.minExtent th o))).1).length = cs.length := by
      rw [length_addToLast, length_distribute _ _ _ (by simp)]
      simp
    have ih := Node.violation_layoutChildren th cs o rect (rect.start o) _ hel
    have hmin := (Node.minExtentL_layoutChildren th o cs o rect (rect.start o)
      (addToLast (rect.extent o - th * (cs.length - 1) -
        (distribute (rect.extent o - th * (cs.length - 1)) (cs.map Node.weight)
          (cs.map (Node.minExtent th o))).1.sum)
        (distribute (rect.extent o - th * (cs.length - 1)) (cs.map Node.weight)
          (cs.map (Node.minExtent th o))).1)).1
    have hfit : Node.minimumsFit th (Node.setGeometry th rect (Node.container w o g cs)).1 =
        !((distribute (rect.extent o - th * (cs.length - 1)) (cs.map Node.weight)
          (cs.map (Node.minExtent th o))).2 ||
          decide (rect.extent o < th * (cs.length - 1))) := by
      simp only [Node.setGeometry, Node.minimumsFit, Node.sumMinExtent_holdExtents,
        Node.length_holdExtents, Node.length_layoutChildren, hmin]
      rw [Node.sumMinExtent_eq]
      have hd := distribute_overflow_iff (rect.extent o - th * (cs.length - 1))
        (cs.map Node.weight) (cs.map (Node.minExtent th o))
      cases hv : (distribute (rect.extent o - th * (cs.length - 1)) (cs.map Node.weight)
          (cs.map (Node.minExtent th o))).2 with
      | true =>
        have := hd.mp hv
        simp only [Bool.true_or, Bool.not_true, decide_eq_false_iff_not]
        omega
      | false =>
        have : ¬ rect.extent o - th * (cs.length - 1) < (cs.map (Node.minExtent th o)).sum := by
          intro hlt
          have := hd.mpr hlt
          rw [hv] at this
          exact absurd this (by simp)
        by_cases hs : rect.extent o < th * (cs.length - 1)
        · simp only [hs, decide_True, Bool.or_true, Bool.not_true, decide_eq_false_iff_not]
          omega
        · simp only [hs, decide_False, Bool.or_false, Bool.not_false, decide_eq_true_eq]
          omega
    simp only [Node.setGeometry] at hfit ⊢
    simp only [Node.containers, List.all_cons, hfit,
      Node.all_containersL_holdExtents (Node.minimumsFit th) (Node.minimumsFit_setWeight th),
      ih, Bool.not_and, Bool.not_not]
theorem Node.violation_layoutChildren (th : Nat) : ∀ (cs : List Node) (o : Orientation)
    (rect : Rect) (pos : Nat) (es : List Nat), es.length = cs.length →
    (Node.layoutChildren th o rect pos es cs).2 =
      !((Node.containersL (Node.layoutChildren th o rect pos es cs).1).all (Node.minimumsFit th))
  | [], o, rect, pos, es, _ => by cases es <;> simp [Node.layoutChildren, Node.containersL]
  | n :: cs, o, rect, pos, [], h => by simp at h
  | n :: cs, o, rect, pos, e :: es, h => by
    simp only [Node.layoutChildren, Node.containersL, List.all_append, Bool.not_and,
      Node.violation_setGeometry th n,
      Node.violation_layoutChildren th cs o rect _ es (by simpa using h)]
end

/-- The constraint-violation report of `setGeometry` is raised exactly when the extent of
some Container of the tree does not hold the minimums of its children and the separators. -/
theorem Tree.violation_setGeometry_iff (th : Nat) (rect : Rect) (t : Tree) :
    (Tree.setGeometry th rect t).2 = false ↔
      ∀ c ∈ Tree.containers (Tree.setGeometry th rect t).1, Node.minimumsFit th c = true := by
  unfold Tree.setGeometry Tree.containers
  cases hr : t.root with
  | none => simp
  | some n =>
    simp [Node.violation_setGeometry th n rect]

/-! ## Layout: the tree stays minimal -/

theorem Node.minimalL_iff : ∀ (cs : List Node),
    Node.minimalL cs = true ↔ ∀ c ∈ cs, Node.minimal c = true
  | [] => by simp [Node.minimalL]
  | c :: cs => by simp [Node.minimalL, Node.minimalL_iff cs]

theorem Node.minimalL_append (as bs : List Node) :
    Node.minimalL (as ++ bs) = true ↔ Node.minimalL as = true ∧ Node.minimalL bs = true := by
  simp only [Node.minimalL_iff, List.mem_append]
  constructor
  · intro h
    exact ⟨fun c hc => h c (Or.inl hc), fun c hc => h c (Or.inr hc)⟩
  · rintro ⟨h1, h2⟩ c (hc | hc)
    · exact h1 c hc
    · exact h2 c hc

theorem Node.minimalL_ordered (before : Bool) (a b : Node) :
    Node.minimalL (ordered before a b) = true ↔ Node.minimal a = true ∧ Node.minimal b = true := by
  cases before <;> simp [ordered, Node.minimalL, and_comm]

theorem length_ordered (before : Bool) (a b : Node) : (ordered before a b).length = 2 := by
  cases before <;> rfl

mutual
theorem Node.minimal_insertNear (new : Item) (anchor : Nat) (o : Orientation) (before : Bool) :
    ∀ (n : Node) (parent : Option Orientation) (r : List Node),
    Node.minimal n = true → Node.insertNear new anchor o before parent n = some r →
      Node.minimalL r = true ∧ 1 ≤ r.length
  | Node.item w it, parent, r, _, h => by
    simp only [Node.insertNear] at h
    by_cases hid : it.id = anchor
    · by_cases hp : parent = some o
      · simp only [hid, hp, if_true, Option.some.injEq] at h
        subst h
        simp [Node.minimalL_ordered, Node.minimal, length_ordered]
      · simp only [hid, hp, if_true, if_false, Option.some.injEq] at h
        subst h
        simp [Node.minimalL, Node.minimalL_ordered, Node.minimal, length_ordered]
    · simp [hid] at h
  | Node.container w o2 g cs, parent, r, hm, h => by
    simp only [Node.insertNear] at h
    simp only [Node.minimal, Bool.and_eq_true, decide_eq_true_eq] at hm
    cases hc : Node.insertNearL new anchor o before (some o2) cs with
    | none => simp [hc] at h
    | some cs2 =>
      simp only [hc, Option.some.injEq] at h
      subst h
      have ih := Node.minimalL_insertNearL new anchor o before cs (some o2) cs2 hm.2 hc
      simp only [Node.minimalL, Node.minimal, Bool.and_eq_true, decide_eq_true_eq,
        List.length_singleton, le_refl, and_true]
      exact ⟨by omega, ih.1⟩
theorem Node.minimalL_insertNearL (new : Item) (anchor : Nat) (o : Orientation) (before : Bool) :
    ∀ (cs : List Node) (parent : Option Orientation) (cs2 : List Node),
    Node.minimalL cs = true → Node.insertNearL new anchor o before parent cs = some cs2 →
      Node.minimalL cs2 = true ∧ cs.length ≤ cs2.length
  | [], parent, cs2, _, h => by simp [Node.insertNearL] at h
  | c :: cs, parent, cs2, hm, h => by
    simp only [Node.minimalL, Bool.and_eq_true] at hm
    simp only [Node.insertNearL] at h
    cases hc : Node.insertNear new anchor o before parent c with
    | some r =>
      simp only [hc, Option.some.injEq] at h
      subst h
      have ih := Node.minimal_insertNear new anchor o before c parent r hm.1 hc
      rw [Node.minimalL_append]
      refine ⟨⟨ih.1, hm.2⟩, ?_⟩
      simp only [List.length_append, List.length_cons]
      omega
    | none =>
      simp only [hc] at h
      cases hcs : Node.insertNearL new anchor o before parent cs with
      | none => simp [hcs] at h
      | some cs3 =>
        simp only [hcs, Option.some.injEq] at h
        subst h
        have ih := Node.minimalL_insertNearL new anchor o before cs parent cs3 hm.2 hcs
        simp only [Node.minimalL, Bool.and_eq_true, List.length_cons]
        exact ⟨⟨hm.1, ih.1⟩, by omega⟩
end

mutual
theorem Node.minimal_addTab (new : Item) (anchor : Nat) :
    ∀ (n n2 : Node), Node.minimal n = true → Node.addTab new anchor n = some n2 →
      Node.minimal n2 = true
  | Node.item w it, n2, _, h => by
    simp only [Node.addTab] at h
    by_cases hid : it.id = anchor
    · simp only [hid, if_true, Option.some.injEq] at h
      subst h
      simp [Node.minimal]
    · simp [hid] at h
  | Node.container w o g cs, n2, hm, h => by
    simp only [Node.addTab] at h
    simp only [Node.minimal, Bool.and_eq_true, decide_eq_true_eq] at hm
    cases hc : Node.addTabL new anchor cs with
    | none => simp [hc] at h
    | some cs2 =>
      simp only [hc, Option.some.injEq] at h
      subst h
      have ih := Node.minimalL_addTabL new anchor cs cs2 hm.2 hc
      simp only [Node.minimal, Bool.and_eq_true, decide_eq_true_eq]
      exact ⟨by omega, ih.1⟩
theorem Node.minimalL_addTabL (new : Item) (anchor : Nat) :
    ∀ (cs cs2 : List Node), Node.minimalL cs = true → Node.addTabL new anchor cs = some cs2 →
      Node.minimalL cs2 = true ∧ cs2.length = cs.length
  | [], cs2, _, h => by simp [Node.addTabL] at h
  | c :: cs, cs2, hm, h => by
    simp only [Node.minimalL, Bool.and_eq_true] at hm
    simp only [Node.addTabL] at h
    cases hc : Node.addTab new anchor c with
    | some c2 =>
      simp only [hc, Option.some.injEq] at h
      subst h
      simp only [Node.minimalL, Bool.and_eq_true, List.length_cons, and_true]
      exact ⟨Node.minimal_addTab new anchor c c2 hm.1 hc, hm.2⟩
    | none =>
      simp only [hc] at h
      cases hcs : Node.addTabL new anchor cs with
      | none => simp [hcs] at h
      | some cs3 =>
        simp only [hcs, Option.some.injEq] at h
        subst h
        have ih := Node.minimalL_addTabL new anchor cs cs3 hm.2 hcs
        simp only [Node.minimalL, Bool.and_eq_true, List.length_cons]
        exact ⟨⟨hm.1, ih.1⟩, by omega⟩
end

theorem Node.minimal_joinRoot (new : Item) (o : Orientation) (before : Bool) (rect : Rect)
    (n : Node) (hm : Node.minimal n = true) :
    Node.minimal (Node.joinRoot new o before rect n) = true := by
  cases n with
  | item w it =>
    simp [Node.joinRoot, Node.minimal, Node.minimalL_ordered, length_ordered]
  | container w o2 g cs =>
    have hm2 := hm
    simp only [Node.minimal, Bool.and_eq_true, decide_eq_true_eq] at hm2
    unfold Node.joinRoot
    by_cases ho : o2 = o
    · cases before
      · simp only [ho, if_true, Bool.false_eq_true, if_false, Node.minimal, Bool.and_eq_true,
          decide_eq_true_eq, List.length_append, List.length_singleton]
        refine ⟨by omega, ?_⟩
        rw [Node.minimalL_append]
        exact ⟨hm2.2, by simp [Node.minimalL, Node.minimal]⟩
      · simp only [ho, if_true, Node.minimal, Node.minimalL, Bool.and_eq_true,
          decide_eq_true_eq, List.length_cons]
        exact ⟨by omega, trivial, hm2.2⟩
    · simp only [ho, if_false, Node.minimal, Bool.and_eq_true, decide_eq_true_eq,
        length_ordered, Node.minimalL_ordered, Node.minimal_setWeight]
      exact ⟨le_refl 2, trivial, hm⟩

mutual
theorem Node.minimal_remove (id : Nat) : ∀ (n n2 : Node),
    Node.minimal n = true → Node.remove id n = Removal.replaced n2 → Node.minimal n2 = true
  | Node.item w it, n2, _, h => by
    simp only [Node.remove] at h
    by_cases hid : it.id = id <;> simp [hid] at h
  | Node.container w o g cs, n2, hm, h => by
    simp only [Node.minimal, Bool.and_eq_true, decide_eq_true_eq] at hm
    simp only [Node.remove] at h
    cases hc : Node.removeL id cs with
    | none => simp [hc] at h
    | some cs2 =>
      have ih := Node.minimalL_removeL id cs cs2 hm.2 hc
      match cs2, ih, hc with
      | [], _, hc => simp [hc] at h
      | [c], ih, hc =>
        simp only [hc, Removal.replaced.injEq] at h
        subst h
        simp only [Node.minimalL, Bool.and_eq_true] at ih
        rw [Node.minimal_setWeight]
        exact ih.1
      | c :: c2 :: cs3, ih, hc =>
        simp only [hc, Removal.replaced.injEq] at h
        subst h
        simp only [Node.minimal, Bool.and_eq_true, decide_eq_true_eq, List.length_cons]
        exact ⟨by omega, ih⟩
theorem Node.minimalL_removeL (id : Nat) : ∀ (cs cs2 : List Node),
    Node.minimalL cs = true → Node.removeL id cs = some cs2 → Node.minimalL cs2 = true
  | [], cs2, _, h => by simp [Node.removeL] at h
  | c :: cs, cs2, hm, h => by
    simp only [Node.minimalL, Bool.and_eq_true] at hm
    simp only [Node.removeL] at h
    cases hc : Node.remove id c with
    | vanished =>
      simp only [hc, Option.some.injEq] at h
      subst h
      exact hm.2
    | replaced c2 =>
      simp only [hc, Option.some.injEq] at h
      subst h
      simp only [Node.minimalL, Bool.and_eq_true]
      exact ⟨Node.minimal_remove id c c2 hm.1 hc, hm.2⟩
    | notFound =>
      simp only [hc] at h
      cases hcs : Node.removeL id cs with
      | none => simp [hcs] at h
      | some cs3 =>
        simp only [hcs, Option.some.injEq] at h
        subst h
        simp only [Node.minimalL, Bool.and_eq_true]
        exact ⟨hm.1, Node.minimalL_removeL id cs cs3 hm.2 hcs⟩
end

mutual
theorem SavedNode.minimal_build (resolvePanel : Nat → Option PanelHandle) :
    ∀ (d : SavedNode) (isRoot : Bool) (n : Node),
    SavedNode.build resolvePanel isRoot d = Except.ok n → Node.minimal n = true
  | SavedNode.item w panel visible, isRoot, n, h => by
    simp only [SavedNode.build] at h
    split at h
    · simp at h
    · cases hr : resolvePanel panel with
      | none => simp [hr] at h
      | some p =>
        simp only [hr, Except.ok.injEq] at h
        subst h
        simp [Node.minimal]
  | SavedNode.container w orientation children, isRoot, n, h => by
    simp only [SavedNode.build] at h
    split at h
    · simp at h
    · split at h
      · simp at h
      · split at h
        · simp at h
        · rename_i hlen
          cases hb : SavedNode.buildL resolvePanel children with
          | error e => simp [hb] at h
          | ok cs =>
            simp only [hb, Except.ok.injEq] at h
            subst h
            have ih := SavedNode.minimalL_buildL resolvePanel children cs hb
            simp only [Node.minimal, Bool.and_eq_true, decide_eq_true_eq]
            exact ⟨by omega, ih.1⟩
theorem SavedNode.minimalL_buildL (resolvePanel : Nat → Option PanelHandle) :
    ∀ (ds : List SavedNode) (cs : List Node),
    SavedNode.buildL resolvePanel ds = Except.ok cs →
      Node.minimalL cs = true ∧ cs.length = ds.length
  | [], cs, h => by
    simp only [SavedNode.buildL, Except.ok.injEq] at h
    subst h
    simp [Node.minimalL]
  | d :: ds, cs, h => by
    simp only [SavedNode.buildL] at h
    cases hd : SavedNode.build resolvePanel false d with
    | error e => simp [hd] at h
    | ok c =>
      simp only [hd] at h
      cases hds : SavedNode.buildL resolvePanel ds with
      | error e => simp [hds] at h
      | ok cs2 =>
        simp only [hds, Except.ok.injEq] at h
        subst h
        have ih := SavedNode.minimalL_buildL resolvePanel ds cs2 hds
        simp only [Node.minimalL, Bool.and_eq_true, List.length_cons]
        exact ⟨⟨SavedNode.minimal_build resolvePanel d false c hd, ih.1⟩, by omega⟩
end

theorem Tree.minimal_tree_setGeometry (th : Nat) (rect : Rect) (t : Tree) :
    Tree.minimal (Tree.setGeometry th rect t).1 = Tree.minimal t := by
  unfold Tree.setGeometry Tree.minimal
  cases hr : t.root with
  | none => simp
  | some n => simp [Node.minimal_setGeometry]

theorem Tree.minimal_tree_relayout (th : Nat) (t : Tree) :
    Tree.minimal (Tree.relayout th t) = Tree.minimal t :=
  Tree.minimal_tree_setGeometry th t.geometry t

theorem Tree.minimal_tree_insert (th : Nat) (new : Item) (anchor : Option Nat) (location : Location)
    (t t2 : Tree) (hm : Tree.minimal t = true)
    (h : Tree.insert th new anchor location t = Except.ok t2) : Tree.minimal t2 = true := by
  unfold Tree.insert at h
  unfold Tree.minimal at hm
  cases hroot : t.root with
  | none =>
    cases anchor with
    | none =>
      simp only [hroot, Except.ok.injEq] at h
      subst h
      rw [Tree.minimal_tree_relayout]
      simp [Tree.minimal, Node.minimal]
    | some a => simp [hroot] at h
  | some n =>
    simp only [hroot] at hm
    cases anchor with
    | none =>
      cases hs : location.split with
      | none =>
        cases n with
        | item w it =>
          simp only [hroot, hs, Except.ok.injEq] at h
          subst h
          rw [Tree.minimal_tree_relayout]
          simp [Tree.minimal, Node.minimal]
        | container w o g cs => simp [hroot, hs] at h
      | some ob =>
        obtain ⟨o, before⟩ := ob
        simp only [hroot, hs, Except.ok.injEq] at h
        subst h
        rw [Tree.minimal_tree_relayout]
        simp only [Tree.minimal]
        exact Node.minimal_joinRoot new o before t.geometry n hm
    | some a =>
      cases hs : location.split with
      | none =>
        simp only [hroot, hs] at h
        cases hc : Node.addTab new a n with
        | none => simp [hc] at h
        | some n2 =>
          simp only [hc, Except.ok.injEq] at h
          subst h
          rw [Tree.minimal_tree_relayout]
          simp only [Tree.minimal]
          exact Node.minimal_addTab new a n n2 hm hc
      | some ob =>
        obtain ⟨o, before⟩ := ob
        simp only [hroot, hs] at h
        cases hc : Node.insertNear new a o before none n with
        | none => simp [hc] at h
        | some r =>
          have ih := Node.minimal_insertNear new a o before n none r hm hc
          match r, ih, hc with
          | [], _, hc => simp [hc] at h
          | [n2], ih, hc =>
            simp only [hc, Except.ok.injEq] at h
            subst h
            rw [Tree.minimal_tree_relayout]
            simp only [Node.minimalL, Bool.and_eq_true, and_true] at ih
            simp only [Tree.minimal]
            exact ih.1
          | _ :: _ :: _, _, hc => simp [hc] at h

theorem Tree.minimal_tree_remove (th : Nat) (id : Nat) (t t2 : Tree) (hm : Tree.minimal t = true)
    (h : Tree.remove th id t = Except.ok t2) : Tree.minimal t2 = true := by
  unfold Tree.remove at h
  unfold Tree.minimal at hm
  cases hroot : t.root with
  | none => simp [hroot] at h
  | some n =>
    simp only [hroot] at h hm
    cases hc : Node.remove id n with
    | notFound => simp [hc] at h
    | vanished =>
      simp only [hc, Except.ok.injEq] at h
      subst h
      simp [Tree.minimal]
    | replaced n2 =>
      simp only [hc, Except.ok.injEq] at h
      subst h
      rw [Tree.minimal_tree_relayout]
      simp only [Tree.minimal]
      exact Node.minimal_remove id n n2 hm hc

theorem Tree.minimal_tree_restore (th : Nat) (resolvePanel : Nat → Option PanelHandle)
    (data : Option SavedNode) (t t2 : Tree)
    (h : Tree.restore th resolvePanel data t = Except.ok t2) : Tree.minimal t2 = true := by
  unfold Tree.restore at h
  cases data with
  | none =>
    simp only [Except.ok.injEq] at h
    subst h
    simp [Tree.minimal]
  | some d =>
    simp only at h
    cases hb : SavedNode.build resolvePanel true d with
    | error e => simp [hb] at h
    | ok n =>
      simp only [hb, Except.ok.injEq] at h
      subst h
      rw [Tree.minimal_tree_relayout]
      simp only [Tree.minimal]
      exact SavedNode.minimal_build resolvePanel d true n hb

theorem Node.minimalL_reweigh (o : Orientation) (ea eb : Nat) :
    ∀ (index : Nat) (cs : List Node),
      Node.minimalL (reweigh o ea eb index cs) = Node.minimalL cs ∧
        (reweigh o ea eb index cs).length = cs.length
  | 0, [] => by simp [reweigh]
  | _ + 1, [] => by simp [reweigh]
  | 0, [a] => by simp [reweigh]
  | 0, a :: b :: rest => by
    simp only [reweigh, Node.minimalL, Node.minimal_setWeight, List.length_cons,
      List.length_map, and_true]
    rw [Node.minimalL_map_setWeight (fun n => n.geometry.extent o) rest]
  | index + 1, c :: cs => by
    have ih := Node.minimalL_reweigh o ea eb index cs
    simp only [reweigh, Node.minimalL, Node.minimal_setWeight, List.length_cons, ih.1, ih.2,
      and_self]

theorem Node.minimal_dragSeparator (th : Nat) (index : Nat) (delta : Int) (n n2 : Node)
    (hm : Node.minimal n = true) (h : Node.dragSeparator th index delta n = some n2) :
    Node.minimal n2 = true := by
  cases n with
  | item w it => simp [Node.dragSeparator] at h
  | container w o g cs =>
    unfold Node.dragSeparator at h
    cases ha : cs[index]? with
    | none => simp only [ha] at h; exact absurd h (by simp)
    | some a =>
      cases hb : cs[index + 1]? with
      | none => simp only [ha, hb] at h; exact absurd h (by simp)
      | some b =>
        simp only [ha, hb, Option.some.injEq] at h
        subst h
        rw [Node.minimal_setGeometry]
        simp only [Node.minimal, Bool.and_eq_true, decide_eq_true_eq] at hm ⊢
        split
        · exact hm
        · rw [(Node.minimalL_reweigh _ _ _ index cs).1, (Node.minimalL_reweigh _ _ _ index cs).2]
          exact hm

mutual
theorem Node.minimal_dragAt (th : Nat) (index : Nat) (delta : Int) :
    ∀ (n : Node) (path : List Nat) (n2 : Node), Node.minimal n = true →
      Node.dragAt th index delta path n = some n2 → Node.minimal n2 = true
  | Node.item w it, [], n2, hm, h => by
    simp only [Node.dragAt] at h
    exact Node.minimal_dragSeparator th index delta _ n2 hm h
  | Node.item w it, _ :: _, n2, _, h => by simp [Node.dragAt] at h
  | Node.container w o g cs, [], n2, hm, h => by
    simp only [Node.dragAt] at h
    exact Node.minimal_dragSeparator th index delta _ n2 hm h
  | Node.container w o g cs, i :: path, n2, hm, h => by
    simp only [Node.dragAt] at h
    simp only [Node.minimal, Bool.and_eq_true, decide_eq_true_eq] at hm
    cases hc : Node.dragAtL th index delta i path cs with
    | none => simp [hc] at h
    | some cs2 =>
      simp only [hc, Option.some.injEq] at h
      subst h
      have ih := Node.minimalL_dragAtL th index delta cs i path cs2 hm.2 hc
      simp only [Node.minimal, Bool.and_eq_true, decide_eq_true_eq]
      exact ⟨by omega, ih.1⟩
theorem Node.minimalL_dragAtL (th : Nat) (index : Nat) (delta : Int) :
    ∀ (cs : List Node) (i : Nat) (path : List Nat) (cs2 : List Node),
      Node.minimalL cs = true → Node.dragAtL th index delta i path cs = some cs2 →
      Node.minimalL cs2 = true ∧ cs2.length = cs.length
  | [], i, path, cs2, _, h => by cases i <;> simp [Node.dragAtL] at h
  | c :: cs, 0, path, cs2, hm, h => by
    simp only [Node.minimalL, Bool.and_eq_true] at hm
    simp only [Node.dragAtL] at h
    cases hc : Node.dragAt th index delta path c with
    | none => simp [hc] at h
    | some c2 =>
      simp only [hc, Option.some.injEq] at h
      subst h
      simp only [Node.minimalL, Bool.and_eq_true, List.length_cons, and_true]
      exact ⟨Node.minimal_dragAt th index delta c path c2 hm.1 hc, hm.2⟩
  | c :: cs, i + 1, path, cs2, hm, h => by
    simp only [Node.minimalL, Bool.and_eq_true] at hm
    simp only [Node.dragAtL] at h
    cases hc : Node.dragAtL th index delta i path cs with
    | none => simp [hc] at h
    | some cs3 =>
      simp only [hc, Option.some.injEq] at h
      subst h
      have ih := Node.minimalL_dragAtL th index delta cs i path cs3 hm.2 hc
      simp only [Node.minimalL, Bool.and_eq_true, List.length_cons]
      exact ⟨⟨hm.1, ih.1⟩, by omega⟩
end

theorem Tree.minimal_tree_dragSeparator (th : Nat) (path : List Nat) (index : Nat) (delta : Int)
    (t t2 : Tree) (hm : Tree.minimal t = true)
    (h : Tree.dragSeparator th path index delta t = Except.ok t2) : Tree.minimal t2 = true := by
  unfold Tree.dragSeparator at h
  unfold Tree.minimal at hm
  cases hroot : t.root with
  | none => simp [hroot] at h
  | some n =>
    simp only [hroot] at h hm
    cases hc : Node.dragAt th index delta path n with
    | none => simp [hc] at h
    | some n2 =>
      simp only [hc, Except.ok.injEq] at h
      subst h
      simp only [Tree.minimal]
      exact Node.minimal_dragAt th index delta n path n2 hm hc

theorem Tree.minimal_tree_apply (th : Nat) (resolvePanel : Nat → Option PanelHandle) (t : Tree)
    (op : Operation) (hm : Tree.minimal t = true) :
    Tree.minimal (Tree.apply th resolvePanel t op) = true := by
  cases op with
  | insert new anchor location =>
    simp only [Tree.apply]
    cases h : Tree.insert th new anchor location t with
    | error e => exact hm
    | ok t2 => exact Tree.minimal_tree_insert th new anchor location t t2 hm h
  | remove id =>
    simp only [Tree.apply]
    cases h : Tree.remove th id t with
    | error e => exact hm
    | ok t2 => exact Tree.minimal_tree_remove th id t t2 hm h
  | setGeometry rect =>
    simp only [Tree.apply]
    rw [Tree.minimal_tree_setGeometry]
    exact hm
  | dragSeparator path index delta =>
    simp only [Tree.apply]
    cases h : Tree.dragSeparator th path index delta t with
    | error e => exact hm
    | ok t2 => exact Tree.minimal_tree_dragSeparator th path index delta t t2 hm h
  | restore data =>
    simp only [Tree.apply]
    cases h : Tree.restore th resolvePanel data t with
    | error e => exact hm
    | ok t2 => exact Tree.minimal_tree_restore th resolvePanel data t t2 h

theorem Tree.minimal_tree_foldl (th : Nat) (resolvePanel : Nat → Option PanelHandle) :
    ∀ (ops : List Operation) (t : Tree), Tree.minimal t = true →
      Tree.minimal (ops.foldl (Tree.apply th resolvePanel) t) = true
  | [], _, hm => hm
  | op :: ops, t, hm =>
    Tree.minimal_tree_foldl th resolvePanel ops _ (Tree.minimal_tree_apply th resolvePanel t op hm)

/-! ## Layout: what `remove` leaves -/

theorem eq_singleton_of_erase_eq_nil (id : Nat) (l : List Nat) (hm : id ∈ l)
    (he : l.erase id = []) : l = [id] := by
  have hlen := List.length_erase_of_mem hm
  rw [he] at hlen
  simp only [List.length_nil] at hlen
  match l, hm, hlen with
  | [x], hm, _ =>
    simp only [List.mem_singleton] at hm
    rw [hm]
  | _ :: _ :: _, _, hlen => simp at hlen

mutual
theorem Node.itemIds_remove (id : Nat) : ∀ (n : Node),
    (Node.remove id n = Removal.notFound → id ∉ Node.itemIds n) ∧
    (Node.remove id n = Removal.vanished → Node.itemIds n = [id]) ∧
    (∀ n2, Node.remove id n = Removal.replaced n2 →
      id ∈ Node.itemIds n ∧ Node.itemIds n2 = (Node.itemIds n).erase id)
  | Node.item w it => by
    simp only [Node.remove, Node.itemIds]
    by_cases hid : it.id = id
    · simp [hid]
    · simp [hid, Ne.symm hid]
  | Node.container w o g cs => by
    have ih := Node.itemIdsL_removeL id cs
    simp only [Node.remove, Node.itemIds]
    cases hL : Node.removeL id cs with
    | none => simpa using ih.1 hL
    | some cs2 =>
      obtain ⟨hmem, herase⟩ := ih.2 cs2 hL
      match cs2, herase with
      | [], herase =>
        simp only [Node.itemIdsL] at herase
        simpa using eq_singleton_of_erase_eq_nil id _ hmem herase.symm
      | [c], herase =>
        simp only [Node.itemIdsL, List.append_nil] at herase
        simpa [Node.itemIds_setWeight] using And.intro hmem herase
      | c :: c2 :: cs3, herase =>
        simpa [Node.itemIds] using And.intro hmem herase
theorem Node.itemIdsL_removeL (id : Nat) : ∀ (cs : List Node),
    (Node.removeL id cs = none → id ∉ Node.itemIdsL cs) ∧
    (∀ cs2, Node.removeL id cs = some cs2 →
      id ∈ Node.itemIdsL cs ∧ Node.itemIdsL cs2 = (Node.itemIdsL cs).erase id)
  | [] => by simp [Node.removeL, Node.itemIdsL]
  | c :: cs => by
    have ihc := Node.itemIds_remove id c
    have ihs := Node.itemIdsL_removeL id cs
    simp only [Node.removeL, Node.itemIdsL, List.mem_append]
    cases hc : Node.remove id c with
    | vanished =>
      have h1 := ihc.2.1 hc
      simp [h1]
    | replaced c2 =>
      obtain ⟨hmem, herase⟩ := ihc.2.2 c2 hc
      simp [hmem, herase, List.erase_append_left _ hmem, Node.itemIdsL]
    | notFound =>
      have hnot := ihc.1 hc
      cases hL : Node.removeL id cs with
      | none =>
        have := ihs.1 hL
        simp [hnot, this]
      | some cs3 =>
        obtain ⟨hmem, herase⟩ := ihs.2 cs3 hL
        simp [hnot, hmem, herase, List.erase_append_right _ hnot, Node.itemIdsL]
end

theorem Tree.itemIds_tree_setGeometry (th : Nat) (rect : Rect) (t : Tree) :
    Tree.itemIds (Tree.setGeometry th rect t).1 = Tree.itemIds t := by
  unfold Tree.setGeometry Tree.itemIds
  cases hr : t.root with
  | none => rfl
  | some n => simp [Node.itemIds_setGeometry]

/-- After `remove(item)`, accepted or rejected, the tree holds the Items it held, in their
order, without the removed one. -/
theorem Tree.itemIds_apply_remove (th : Nat) (resolvePanel : Nat → Option PanelHandle)
    (id : Nat) (t : Tree) :
    Tree.itemIds (Tree.apply th resolvePanel t (Operation.remove id)) =
      (Tree.itemIds t).erase id := by
  cases hr : t.root with
  | none => simp [Tree.apply, Tree.remove, Tree.itemIds, hr]
  | some n =>
    have ih := Node.itemIds_remove id n
    cases hc : Node.remove id n with
    | notFound =>
      have := ih.1 hc
      simp [Tree.apply, Tree.remove, Tree.itemIds, hr, hc, List.erase_of_not_mem this]
    | vanished =>
      have := ih.2.1 hc
      simp [Tree.apply, Tree.remove, Tree.itemIds, hr, hc, this]
    | replaced n2 =>
      obtain ⟨_, herase⟩ := ih.2.2 n2 hc
      simp only [Tree.apply, Tree.remove, hr, hc, Tree.relayout]
      rw [Tree.itemIds_tree_setGeometry]
      simp [Tree.itemIds, hr, herase]

/-- Whenever detaching the Item leaves a Container with the single child `c`, the Container
is replaced by `c`, which takes its weight. -/
theorem Node.remove_collapse (id : Nat) (w : Nat) (o : Orientation) (g : Rect)
    (cs : List Node) (c : Node) (h : Node.removeL id cs = some [c]) :
    Node.remove id (Node.container w o g cs) = Removal.replaced (Node.setWeight w c) := by
  simp [Node.remove, h]

theorem Node.remove_first_of_two (id : Nat) (w : Nat) (o : Orientation) (g : Rect) (wa : Nat)
    (a : Item) (x : Node) (h : a.id = id) :
    Node.remove id (Node.container w o g [Node.item wa a, x]) =
      Removal.replaced (Node.setWeight w x) := by
  simp [Node.remove, Node.removeL, h]

theorem Node.remove_second_of_two (id : Nat) (w : Nat) (o : Orientation) (g : Rect) (wa : Nat)
    (a : Item) (x : Node) (h : a.id = id) (hx : Node.remove id x = Removal.notFound) :
    Node.remove id (Node.container w o g [x, Node.item wa a]) =
      Removal.replaced (Node.setWeight w x) := by
  simp [Node.remove, Node.removeL, h, hx]

theorem Node.remove_cascade (id : Nat) (w : Nat) (o : Orientation) (g : Rect) (x y : Node)
    (h : Node.remove id x = Removal.replaced y) :
    Node.remove id (Node.container w o g [x]) = Removal.replaced (Node.setWeight w y) := by
  simp [Node.remove, Node.removeL, h]

/-! ## Layout: the claims -/

/-- C3 as stated fails: two Items of minimum width 60 side by side, separator thickness 5,
`setGeometry` with width 100. The minimums do not fit, both children are clamped to 60 and
the violation is reported; 60 + 60 + 5 is 125, not 100. -/
theorem coverage_fails_when_minimums_exceed_extent :
    Tree.setGeometry 5 ⟨0, 0, 100, 50⟩ (Tree.run 5 noPanels (sideBySide 60)) =
      (⟨some (Node.container 1 Orientation.horizontal ⟨0, 0, 100, 50⟩
          [Node.item 1 { sampleItem 1 60 with geometry := ⟨0, 0, 60, 50⟩ },
           Node.item 1 { sampleItem 2 60 with geometry := ⟨65, 0, 60, 50⟩ }]),
        ⟨0, 0, 100, 50⟩⟩, true) ∧
    (Tree.containers
      (Tree.setGeometry 5 ⟨0, 0, 100, 50⟩ (Tree.run 5 noPanels (sideBySide 60))).1).map
        (fun c => (Node.exactlyCovered 5 c, Node.minimumsFit 5 c)) = [(false, false)] ∧
    Node.sumExtent Orientation.horizontal
        [Node.item 1 { sampleItem 1 60 with geometry := ⟨0, 0, 60, 50⟩ },
         Node.item 1 { sampleItem 2 60 with geometry := ⟨65, 0, 60, 50⟩ }] + 5 * (2 - 1) = 125 :=
  ⟨rfl, by decide, by decide⟩

/-- C3 (amended): for every sequence of prior operations (`insert`, `remove`, the resizes
`setGeometry` and separator drag, `restore`) and every Container of the tree after
`setGeometry`: the sum of the children's extents along the split axis plus the separator
thicknesses exactly equals the Container's extent along that axis, the children lying one
after the other a separator apart without gap or overlap, if and only if that extent is at
least the sum of the children's minimums plus the separator thicknesses. -/
theorem setGeometry_exact_coverage (thickness : Nat) (resolvePanel : Nat → Option PanelHandle)
    (ops : List Operation) (rect : Rect) (c : Node)
    (hc : c ∈ Tree.containers
      (Tree.setGeometry thickness rect (Tree.run thickness resolvePanel ops)).1) :
    Node.exactlyCovered thickness c = true ↔ Node.minimumsFit thickness c = true :=
  Tree.coverage_tree_setGeometry thickness rect _
    (Tree.minimal_tree_foldl thickness resolvePanel ops Tree.empty rfl) c hc

theorem setGeometry_exact_coverage_witness :
    Tree.containers (Tree.setGeometry 5 ⟨0, 0, 200, 50⟩
        (Tree.run 5 tallPanels [Operation.restore (some besideStacked)])).1 =
      [besideStackedLaidOut, stackedLaidOut] ∧
    Node.minimumsFit 5 besideStackedLaidOut = true ∧
    Node.exactlyCovered 5 besideStackedLaidOut = true ∧
    Node.minimumsFit 5 stackedLaidOut = false ∧
    Node.exactlyCovered 5 stackedLaidOut = false :=
  have e : Tree.containers (Tree.setGeometry 5 ⟨0, 0, 200, 50⟩
        (Tree.run 5 tallPanels [Operation.restore (some besideStacked)])).1 =
      [besideStackedLaidOut, stackedLaidOut] := Node.eq_of_beqL _ _ (by decide)
  ⟨e, by decide,
   (setGeometry_exact_coverage 5 tallPanels [Operation.restore (some besideStacked)]
      ⟨0, 0, 200, 50⟩ besideStackedLaidOut (e ▸ List.Mem.head _)).mpr (by decide),
   by decide, by decide⟩

/-- C4: the minimality invariant. After any sequence of public operations of the
Multi-Splitter Tree (`insert`, `remove`, `setGeometry`, `restore`, and separator drags,
accepted or rejected), the tree contains no Container with fewer than two children. A
`remove` takes nothing but the removed Item out of the tree. Whenever it leaves a Container
with a single child, the Container is replaced by that child, which takes its weight: so for
a Container of the Item and one sibling, whichever comes first, and so again one level up
when the Container above is left with the replacement as its only child. -/
theorem tree_minimal_after_operations (thickness : Nat)
    (resolvePanel : Nat → Option PanelHandle) (ops : List Operation) (id : Nat) :
    Tree.minimal (Tree.run thickness resolvePanel ops) = true ∧
    Tree.itemIds (Tree.apply thickness resolvePanel (Tree.run thickness resolvePanel ops)
        (Operation.remove id)) = (Tree.itemIds (Tree.run thickness resolvePanel ops)).erase id ∧
    (∀ (w : Nat) (o : Orientation) (g : Rect) (cs : List Node) (c : Node),
      Node.removeL id cs = some [c] →
        Node.remove id (Node.container w o g cs) = Removal.replaced (Node.setWeight w c)) ∧
    (∀ (w : Nat) (o : Orientation) (g : Rect) (wa : Nat) (a : Item) (x : Node), a.id = id →
      Node.remove id (Node.container w o g [Node.item wa a, x]) =
        Removal.replaced (Node.setWeight w x)) ∧
    (∀ (w : Nat) (o : Orientation) (g : Rect) (wa : Nat) (a : Item) (x : Node), a.id = id →
      Node.remove id x = Removal.notFound →
        Node.remove id (Node.container w o g [x, Node.item wa a]) =
          Removal.replaced (Node.setWeight w x)) ∧
    (∀ (w : Nat) (o : Orientation) (g : Rect) (x y : Node),
      Node.remove id x = Removal.replaced y →
        Node.remove id (Node.container w o g [x]) = Removal.replaced (Node.setWeight w y)) :=
  ⟨Tree.minimal_tree_foldl thickness resolvePanel ops Tree.empty rfl,
   Tree.itemIds_apply_remove thickness resolvePanel id _,
   fun w o g cs c h => Node.remove_collapse id w o g cs c h,
   fun w o g wa a x h => Node.remove_first_of_two id w o g wa a x h,
   fun w o g wa a x h hx => Node.remove_second_of_two id w o g wa a x h hx,
   fun w o g x y h => Node.remove_cascade id w o g x y h⟩

theorem tree_minimal_after_operations_witness :
    Tree.minimal (Tree.run 5 noPanels (sideBySide 0 ++ [Operation.remove 1])) = true ∧
    Tree.itemIds (Tree.run 5 noPanels (sideBySide 0)) = [1, 2] ∧
    Tree.itemIds (Tree.apply 5 noPanels (Tree.run 5 noPanels (sideBySide 0))
      (Operation.remove 1)) = [2] ∧
    (sampleItem 1 0).id = 1 ∧
    Node.remove 1 (Node.container 7 Orientation.horizontal ⟨0, 0, 205, 50⟩
        [Node.item 100 (sampleItem 1 0), Node.item 100 (sampleItem 2 0)]) =
      Removal.replaced (Node.item 7 (sampleItem 2 0)) ∧
    (Tree.run 5 noPanels
        (Operation.setGeometry ⟨0, 0, 205, 50⟩ :: sideBySide 0 ++ [Operation.remove 1])).root =
      some (Node.item 1 { sampleItem 2 0 with geometry := ⟨0, 0, 205, 50⟩ }) :=
  ⟨(tree_minimal_after_operations 5 noPanels (sideBySide 0 ++ [Operation.remove 1]) 1).1,
   by decide,
   (tree_minimal_after_operations 5 noPanels (sideBySide 0) 1).2.1,
   rfl,
   (tree_minimal_after_operations 5 noPanels [] 1).2.2.2.1 7 Orientation.horizontal
     ⟨0, 0, 205, 50⟩ 100 (sampleItem 1 0) (Node.item 100 (sampleItem 2 0)) rfl,
   rfl⟩

end KDDockWidgets.MultiSplitter
